import Mathlib

/-!
Verification of the go-flagsfiller field-walking and type-dispatch engine.

This file gives a shallow embedding, in Lean, of the core of the
go-flagsfiller repository: the string/value converters, the composite
(string-slice and string-map) flag value adapters, the terminal-field type
dispatch, and the recursive struct walk that registers flags, applies
default tags and applies environment-variable values.  Definitions follow
the Go source (flagsfiller.go, general.go, options.go); external
collaborators (the standard flag package, strconv, time.ParseDuration,
regexp and the strcase renaming library) are modelled by Lean functions
that reproduce their behaviour on the inputs this program feeds them,
with any domain restriction noted at the definition.
-/

namespace Flagsfiller

/-! ## String conversion collaborators (Go strconv / time) -/

/-- Model of Go strconv.ParseBool: accepts exactly the thirteen literal
forms and rejects everything else. -/
def goParseBool : String → Option Bool
  | "1" => some true
  | "t" => some true
  | "T" => some true
  | "true" => some true
  | "TRUE" => some true
  | "True" => some true
  | "0" => some false
  | "f" => some false
  | "F" => some false
  | "false" => some false
  | "FALSE" => some false
  | "False" => some false
  | _ => none

/-- Decimal digit test on a character. -/
def isDigitC (c : Char) : Bool := '0' ≤ c && c ≤ '9'

/-- ASCII whitespace test, modelling unicode.IsSpace on the ASCII range
(the characters Go's strings.TrimSpace strips from identifiers and flag
values in this program). -/
def isSpaceC (c : Char) : Bool :=
  c = ' ' ∨ c = '\t' ∨ c = '\n' ∨ c = (Char.ofNat 11) ∨ c = (Char.ofNat 12) ∨ c = '\r'

/-- Model of Go strings.TrimSpace over the characters of a string. -/
def trimS (s : String) : String :=
  String.mk (((s.data.dropWhile isSpaceC).reverse.dropWhile isSpaceC).reverse)

/-- Split a character list at every character satisfying p; like Go's
Split functions, adjacent separators yield empty pieces and the empty
input yields one empty piece. -/
def splitChars (p : Char → Bool) : List Char → List (List Char)
  | [] => [[]]
  | c :: rest =>
    if p c then [] :: splitChars p rest
    else
      match splitChars p rest with
      | [] => [[c]]
      | g :: gs => (c :: g) :: gs

/-- String splitting on a character predicate, over the character list. -/
def splitStr (p : Char → Bool) (s : String) : List String :=
  (splitChars p s.data).map String.mk

/-- Parse a nonempty all-decimal-digit character list as a natural number. -/
def digitsToNat : List Char → Option Nat
  | [] => none
  | cs =>
    cs.foldl (fun acc c =>
      acc.bind (fun a => if isDigitC c then some (a * 10 + (c.toNat - 48)) else none))
      (some 0)

/-- Model of Go strconv.ParseInt with base 10 and 64-bit size (also the model
used for strconv.Atoi, which is ParseInt(s, 10, 0) on 64-bit platforms).
The model is restricted to plain decimal numerals: the base-prefix forms
(0x, 0o, 0b) only arise for base 0 and underscore digit separators are
rejected by Go itself for a fixed base. -/
def goParseInt64 (s : String) : Option Int :=
  match s.data with
  | '+' :: cs => (digitsToNat cs).bind fun n =>
      if n ≤ 2 ^ 63 - 1 then some (Int.ofNat n) else none
  | '-' :: cs => (digitsToNat cs).bind fun n =>
      if n ≤ 2 ^ 63 then some (-(Int.ofNat n)) else none
  | cs => (digitsToNat cs).bind fun n =>
      if n ≤ 2 ^ 63 - 1 then some (Int.ofNat n) else none

/-- Model of Go strconv.ParseUint with base 10 and 64-bit size: no sign
accepted at all, decimal digits only. -/
def goParseUint64 (s : String) : Option Nat :=
  (digitsToNat s.data).bind fun n => if n ≤ 2 ^ 64 - 1 then some n else none

/-- Nanosecond multiplier of a Go duration unit suffix (time.unitMap). -/
def durUnit : String → Option Int
  | "ns" => some 1
  | "us" => some 1000
  | "µs" => some 1000
  | "μs" => some 1000
  | "ms" => some 1000000
  | "s" => some 1000000000
  | "m" => some 60000000000
  | "h" => some 3600000000000
  | _ => none

/-- One pass of Go time.ParseDuration over the remaining characters: a
decimal integer followed by a unit suffix, repeated.  Fractional
components ("1.5s") are outside this model and yield none, which narrows
the domain of the model but never misreports a successful parse.  The
fuel argument only bounds the recursion; every group consumes at least
one character, so the callers' fuel of length + 1 never runs out. -/
def parseDurGroups : Nat → List Char → Int → Option Int
  | 0, _, _ => none
  | _, [], acc => some acc
  | fuel + 1, c :: rest, acc =>
    if isDigitC c then
      let ds := (c :: rest).takeWhile isDigitC
      let r1 := (c :: rest).dropWhile isDigitC
      match r1 with
      | '.' :: _ => none
      | _ =>
        let us := r1.takeWhile (fun ch => !isDigitC ch && ch ≠ '.')
        let r2 := r1.dropWhile (fun ch => !isDigitC ch && ch ≠ '.')
        match digitsToNat ds, durUnit (String.mk us) with
        | some n, some m => parseDurGroups fuel r2 (acc + Int.ofNat n * m)
        | _, _ => none
    else none

/-- Model of Go time.ParseDuration, restricted to integer quantities (no
fractional parts).  The result is the duration in nanoseconds.  The
overflow checks mirror Go's: the accumulated magnitude may not exceed
2^63, and a positive result may not exceed 2^63 - 1; since every group
contributes a nonnegative amount, Go's running per-group overflow checks
are subsumed by the bound on the final magnitude. -/
def goParseDuration (s : String) : Option Int :=
  match s.data with
  | [] => none
  | '-' :: cs =>
    if cs = ['0'] then some 0
    else (parseDurGroups (cs.length + 1) cs 0).bind fun n =>
      if n ≤ 2 ^ 63 then some (-n) else none
  | '+' :: cs =>
    if cs = ['0'] then some 0
    else (parseDurGroups (cs.length + 1) cs 0).bind fun n =>
      if n ≤ 2 ^ 63 - 1 then some n else none
  | cs =>
    if cs = ['0'] then some 0
    else (parseDurGroups (cs.length + 1) cs 0).bind fun n =>
      if n ≤ 2 ^ 63 - 1 then some n else none

/-- Strip factors of ten from a natural number, returning the stripped
number and the count of factors removed (fuel bounds the loop and the
callers pass the number itself, which is ample). -/
def stripTens : Nat → Nat → Nat × Nat
  | 0, n => (n, 0)
  | fuel + 1, n =>
    if n ≠ 0 && n % 10 = 0 then
      let (m, c) := stripTens fuel (n / 10)
      (m, c + 1)
    else (n, 0)

/-- Whether the decimal rational mAbs × 10^e is at least num (a
magnitude comparison in exact integer arithmetic). -/
def decAtLeast (mAbs : Nat) (e : Int) (num : Nat) : Bool :=
  if 0 ≤ e then mAbs * 10 ^ e.toNat ≥ num
  else mAbs ≥ num * 10 ^ (-e).toNat

/-- Whether the decimal rational mAbs × 10^e is at most 1 / den. -/
def decAtMostInv (mAbs : Nat) (e : Int) (den : Nat) : Bool :=
  if 0 ≤ e then mAbs * 10 ^ e.toNat * den ≤ 1
  else mAbs * den ≤ 10 ^ (-e).toNat

/-- Model of Go strconv.ParseFloat(s, 64), restricted to plain decimal
numerals: an optional sign, integer and/or fractional digits, and an
optional decimal exponent.  The special forms Inf/NaN, hexadecimal
floats and underscore digit separators are outside the model and yield
none (a domain restriction, never a misreported success).  The value is
kept as the exact decimal rational in the canonical form m × 10^e with
ten not dividing a nonzero m, so numerals denoting the same rational
give the same pair; the IEEE-754 rounding step is outside the model,
which uses the value only to track which write a float64 field last
received.  The range checks mirror Go's ErrRange: a magnitude at or
beyond the float64 overflow threshold 2^1024 - 2^970, or a nonzero
magnitude at or below the underflow-to-zero threshold 2^-1075, is
rejected. -/
def goParseFloat (s : String) : Option (Int × Int) :=
  match s.data with
  | [] => none
  | cs0 =>
    let (neg, cs) : Bool × List Char := match cs0 with
      | '+' :: t => (false, t)
      | '-' :: t => (true, t)
      | t => (false, t)
    let intDs := cs.takeWhile isDigitC
    let r1 := cs.dropWhile isDigitC
    let (fracDs, r2) : List Char × List Char := match r1 with
      | '.' :: t => (t.takeWhile isDigitC, t.dropWhile isDigitC)
      | t => ([], t)
    if intDs.isEmpty && fracDs.isEmpty then none
    else
      let expPart : Option Int := match r2 with
        | [] => some 0
        | e :: t =>
          if e = 'e' ∨ e = 'E' then
            let (eneg, t2) : Bool × List Char := match t with
              | '+' :: t3 => (false, t3)
              | '-' :: t3 => (true, t3)
              | t3 => (false, t3)
            match digitsToNat t2 with
            | some n => some (if eneg then -(n : Int) else (n : Int))
            | none => none
          else none
      match expPart, digitsToNat (intDs ++ fracDs) with
      | some e, some m =>
        let (m1, c) := stripTens m m
        if m1 = 0 then some (0, 0)
        else
          let e1 : Int := e - (fracDs.length : Int) + (c : Int)
          if decAtLeast m1 e1 (2 ^ 1024 - 2 ^ 970) then none
          else if decAtMostInv m1 e1 (2 ^ 1075) then none
          else some (if neg then -(m1 : Int) else (m1 : Int), e1)
      | _, _ => none

/-- The textual form of a Go strconv syntax error, as produced by
strconv.NumError.Error for the named function. -/
def strconvErr (fn : String) (input : String) : String :=
  "strconv." ++ fn ++ ": parsing \"" ++ input ++ "\": invalid syntax"

/-- The textual form of a Go time.ParseDuration failure.  Go distinguishes
several message variants (invalid duration, missing unit, unknown unit);
this model uses the generic one, which no theorem below inspects. -/
def durationErr (input : String) : String :=
  "time: invalid duration \"" ++ input ++ "\""

/-! ## Splitting collaborators (Go regexp / strings) -/

/-- Model of Go regexp.Split (with limit -1) restricted to the delimiter
patterns this program actually compiles: the single literal comma and the
two-character classes matching comma or newline.  Any other pattern is
outside the model and is treated as matching nothing; the empty pattern is
guarded by the caller before compilation (parseStringSlice). -/
def regexpSplit (pattern : String) (s : String) : List String :=
  if pattern = "," then splitStr (fun c => c = ',') s
  else if pattern = "[\n,]" ∨ pattern = "[,\n]" then
    splitStr (fun c => c = '\n' ∨ c = ',') s
  else [s]

/-- Embedding of parseStringSlice: with an empty delimiter pattern the
whole value is one element; otherwise split by the pattern, trim each part
and drop the blanks (Go strings.TrimSpace is modelled by trimS). -/
def parseStringSlice (val : String) (valueSplitPattern : String) : List String :=
  if valueSplitPattern = "" then [val]
  else
    ((regexpSplit valueSplitPattern val).map trimS).filter (fun s => s ≠ "")

/-- Embedding of strSliceVar.Set on the backing sequence: parse the
incoming text, then either replace the sequence (override) or append. -/
def strSliceSet (ref : List String) (override : Bool) (valueSplitPattern : String)
    (val : String) : List String :=
  let parts := parseStringSlice val valueSplitPattern
  if override then parts else ref ++ parts

/-- Association-list lookup (Go map read). -/
def lookupAssoc (m : List (String × String)) (k : String) : Option String :=
  match m with
  | [] => none
  | (k', v) :: rest => if k' = k then some v else lookupAssoc rest k

/-- Insert with overwrite into an association list, modelling assignment
into a Go map (first writes append, later writes to the same key update in
place). -/
def mapInsert (m : List (String × String)) (k v : String) : List (String × String) :=
  if m.any (fun p => p.1 = k) then
    m.map (fun p => if p.1 = k then (k, v) else p)
  else m ++ [(k, v)]

/-- Split a piece on the first '=' as Go strings.SplitN(pair, "=", 2)
does: the key is everything before the first '=', the value everything
after it; none when the piece has no '='. -/
def splitFirstEq (pair : String) : String × Option String :=
  let k := pair.data.takeWhile (fun c => c ≠ '=')
  match pair.data.dropWhile (fun c => c ≠ '=') with
  | [] => (String.mk k, none)
  | _ :: v => (String.mk k, some (String.mk v))

/-- Embedding of parseStringToStringMap: split the value on comma or
newline, trim each piece, skip blanks, split each remaining piece on the
first '=' (a piece without '=' maps to the empty string). -/
def parseStringToStringMap (val : String) : List (String × String) :=
  let pairs := splitStr (fun c => c = '\n' ∨ c = ',') val
  pairs.foldl (fun acc pair =>
    let pair := trimS pair
    if pair = "" then acc
    else match splitFirstEq pair with
      | (k, some v) => mapInsert acc k v
      | (k, none) => mapInsert acc k "") []

/-- Embedding of strToStrMapVar.Set on the backing map: parse the incoming
text and merge the entries into the existing map.  Go iterates the parsed
map in unspecified order; since the parsed entries have pairwise distinct
keys the merged map does not depend on that order, and the model fixes the
parse-result order. -/
def strToStrMapSet (cur : List (String × String)) (val : String) :
    List (String × String) :=
  (parseStringToStringMap val).foldl (fun m kv => mapInsert m kv.1 kv.2) cur

/-! ## Naming collaborators (strcase) and usage requoting -/

/-- Uppercase ASCII letter test. -/
def isUpperC (c : Char) : Bool := 'A' ≤ c && c ≤ 'Z'

/-- Lowercase ASCII letter test. -/
def isLowerC (c : Char) : Bool := 'a' ≤ c && c ≤ 'z'

/-- Shift an ASCII letter to the other case by 32 code points. -/
def flipCase (c : Char) (up : Bool) : Char :=
  if up then Char.ofNat (c.toNat - 32) else Char.ofNat (c.toNat + 32)

/-- Model of strcase.ToScreamingDelimited (with empty ignore set) over the
characters of the trimmed input, carrying the previous character for the
acronym-boundary rule.  For each character: case-convert it, insert the
delimiter at a word boundary (case or letter/digit transition), and
replace the literal separators space, underscore, hyphen and dot by the
delimiter (a character equal to the delimiter is kept as it is). -/
def delimitedGo (delim : Char) (screaming : Bool) : Option Char → List Char → List Char
  | _, [] => []
  | prev, v :: rest =>
    let vIsCap := isUpperC v
    let vIsLow := isLowerC v
    let vIsNum := isDigitC v
    let vc := if vIsLow && screaming then flipCase v true
              else if vIsCap && !screaming then flipCase v false
              else v
    let boundary := match rest with
      | [] => false
      | next :: _ =>
        (vIsCap && (isLowerC next || isDigitC next)) ||
        (vIsLow && (isUpperC next || isDigitC next)) ||
        (vIsNum && (isUpperC next || isLowerC next))
    if boundary then
      let nextIsLow := match rest with
        | [] => false
        | next :: _ => isLowerC next
      let nextIsNum := match rest with
        | [] => false
        | next :: _ => isDigitC next
      let pre := if vIsCap && nextIsLow &&
                    (match prev with | some p => isUpperC p | none => false)
                 then [delim] else []
      let post := if vIsLow || vIsNum || nextIsNum then [delim] else []
      pre ++ [vc] ++ post ++ delimitedGo delim screaming (some v) rest
    else
      (if (v = ' ' ∨ v = '_' ∨ v = '-' ∨ v = '.') ∧ v ≠ delim then [delim] else [vc])
        ++ delimitedGo delim screaming (some v) rest

/-- Model of strcase.ToKebab, the default flag-name transform
(DefaultFieldRenamer in options.go): word-wise conversion to
lowercase-hyphen form. -/
def toKebab (s : String) : String :=
  String.mk (delimitedGo '-' false none (trimS s).data)

/-- Model of strcase.ToScreamingSnake, used by the WithEnv option for
environment-variable names. -/
def toScreamingSnake (s : String) : String :=
  String.mk (delimitedGo '_' true none (trimS s).data)

/-- Embedding of requoteUsage: rewrite the square-bracket placeholder
quoting into the back-quote form the flag package understands. -/
def requoteUsage (usage : String) : String :=
  String.mk (usage.data.map (fun r => if r = '[' ∨ r = ']' then Char.ofNat 96 else r))

/-! ## Type dispatch model (processField's switch, isSupportedStruct)

processField decides how to register a terminal field from the field's
reflect type, the per-field type tag hint and the process-wide extended
type registry.  The reflect type is modelled by its kind together with
its printed identity (getTypeName uses fmt.Sprint of the type, which is
also the registry key), and type identity comparison (t == durationType
and similar) is identity of that printed name. -/

/-- Model of reflect.Kind, restricted to the kinds this program inspects,
with a catch-all for the rest. -/
inductive RKind where
  | string | bool | float64 | int64 | int | uint64 | uint
  | slice | map | struct | ptr | chan | func | interface | other
  deriving DecidableEq, Repr

/-- Go's reflect.Kind.String() rendering for the modelled kinds. -/
def kindString : RKind → String
  | .string => "string"
  | .bool => "bool"
  | .float64 => "float64"
  | .int64 => "int64"
  | .int => "int"
  | .uint64 => "uint64"
  | .uint => "uint"
  | .slice => "slice"
  | .map => "map"
  | .struct => "struct"
  | .ptr => "ptr"
  | .chan => "chan"
  | .func => "func"
  | .interface => "interface"
  | .other => "invalid"

/-- A reflect type as the dispatch logic sees it: its kind and its printed
identity (the getTypeName string). -/
structure RType where
  kind : RKind
  name : String
  deriving DecidableEq, Repr

/-- The package-level durationType (reflect.TypeOf(time.Duration(0))):
kind int64, printed "time.Duration". -/
def durationType : RType := ⟨.int64, "time.Duration"⟩

/-- The package-level stringSliceType (reflect.TypeOf([]string{})). -/
def stringSliceType : RType := ⟨.slice, "[]string"⟩

/-- The package-level stringToStringMapType (reflect.TypeOf(map[string]string{})). -/
def stringToStringMapType : RType := ⟨.map, "map[string]string"⟩

/-- Embedding of isSupportedStruct as used at the top of processField: the
field's type is in the extendedTypes registry (keyed by printed type
name), or its pointer type implements encoding.TextUnmarshaler (in which
case the source lazily registers it; registration does not change the
dispatch outcome, so the model only reads the two sets). -/
def isSupported (registry textUnmarshalers : List String) (t : RType) : Bool :=
  registry.contains t.name || textUnmarshalers.contains t.name

/-- The possible outcomes of processField's terminal-field dispatch. -/
inductive Dispatch where
  | extended | string | bool | float64 | duration | int64 | int
  | uint64 | uint | stringSlice | stringMap | ignored
  deriving DecidableEq, Repr

/-- Embedding of processField's dispatch: the isSupportedStruct check
comes first, then the switch in source order, where the duration, slice
and map cases also fire on the corresponding type tag hint; anything else
is silently ignored. -/
def dispatchOf (registry textUnmarshalers : List String) (t : RType)
    (fieldType : String) : Dispatch :=
  if isSupported registry textUnmarshalers t then .extended
  else if t.kind = .string then .string
  else if t.kind = .bool then .bool
  else if t.kind = .float64 then .float64
  else if t = durationType ∨ fieldType = "duration" then .duration
  else if t.kind = .int64 then .int64
  else if t.kind = .int then .int
  else if t.kind = .uint64 then .uint64
  else if t.kind = .uint then .uint
  else if t = stringSliceType ∨ fieldType = "stringSlice" then .stringSlice
  else if t = stringToStringMapType ∨ fieldType = "stringMap" then .stringMap
  else .ignored

/-! ## The walk model

The recursive struct walk is embedded over an explicit tree model of the
target struct: a Field carries the Go field's name, exportedness, tag
metadata and type; terminal fields carry the dispatch-relevant kind
directly (TermKind).  Struct values form a matching tree (GoValue) and a
field's address is its index path from the root, so the flag values
registered for a field all reference the same path — the embedding of
"pointing at the same storage".  The flag registry is a list of named
entries; Go's flag.FlagSet keeps a map and panics on duplicate names,
which nothing below exercises.

Plain nested structs in this model are structs whose type is neither in
the extended registry nor an encoding.TextUnmarshaler, so the
isSupportedStruct probes in walkFields and processField are false for
them; registered struct types and the float64 kind are covered by the
dispatch model above and are outside the walk embedding.  Named types
that reach a processor through the processCustom fallback are likewise
outside the walk embedding. -/

/-- The terminal field kinds of the walk model, named after the processor
that handles them. -/
inductive TermKind where
  | str | bool | float64 | int64 | int | uint64 | uint | duration | strSlice | strMap
  deriving DecidableEq, Repr

/-- The recognized struct tag keys of one field.  A none mirrors
reflect.StructTag.Lookup reporting absence; aliasesTag and usageTag use
tag.Get, whose absent value is the empty string. -/
structure Tags where
  defaultTag : Option String := none
  envTag : Option String := none
  flagTag : Option String := none
  flattenTag : Option String := none
  overrideValueTag : Option String := none
  typeTag : Option String := none
  aliasesTag : String := ""
  usageTag : String := ""
  deriving DecidableEq, Repr

mutual
/-- The type of a struct field as the walk inspects it. -/
inductive FieldType where
  | term (k : TermKind)
  | structT (tyName : String) (fields : List Field)
  | ptrStructT (tyName : String) (fields : List Field)
  | ptrOther
  | unsupported

/-- One struct field: name, exportedness, tags and type. -/
inductive Field where
  | mk (name : String) (exported : Bool) (tags : Tags) (ftype : FieldType)
end

/-- A Go value tree; struct pointers carry none when nil, and a string
map carries none when it is the nil map. -/
inductive GoValue where
  | str (s : String)
  | bool (b : Bool)
  | int (n : Int)
  | float (m : Int) (e : Int)
  | slice (l : List String)
  | map (m : Option (List (String × String)))
  | structV (fields : List GoValue)
  | ptrStruct (v : Option (List GoValue))
  | ptrOtherV
  | unsupportedV

/-- A field address: the index path from the root struct value. -/
abbrev FieldPath := List Nat

mutual
/-- Read the value at an index path, stepping through struct values and
allocated struct pointers. -/
def GoValue.getAt : GoValue → FieldPath → Option GoValue
  | v, [] => some v
  | .structV cs, i :: p => getAtChildren cs i p
  | .ptrStruct (some cs), i :: p => getAtChildren cs i p
  | _, _ :: _ => none

/-- Read a path below the i-th child. -/
def getAtChildren : List GoValue → Nat → FieldPath → Option GoValue
  | [], _, _ => none
  | c :: _, 0, p => c.getAt p
  | _ :: cs, n + 1, p => getAtChildren cs n p
end

mutual
/-- Write the value at an index path; out-of-tree paths write nothing. -/
def GoValue.setAt : GoValue → FieldPath → GoValue → GoValue
  | _, [], nv => nv
  | .structV cs, i :: p, nv => .structV (setAtChildren cs i p nv)
  | .ptrStruct (some cs), i :: p, nv => .ptrStruct (some (setAtChildren cs i p nv))
  | v, _ :: _, _ => v

/-- Write a path below the i-th child. -/
def setAtChildren : List GoValue → Nat → FieldPath → GoValue → List GoValue
  | [], _, _, _ => []
  | c :: cs, 0, p, nv => c.setAt p nv :: cs
  | c :: cs, n + 1, p, nv => c :: setAtChildren cs n p nv
end

/-- The flag.Value adapters the processors register, as data: each
carries the address of the backing field, so two adapters with the same
address model two flag registrations sharing one storage location. -/
inductive FlagVal where
  | str (addr : FieldPath)
  | bool (addr : FieldPath)
  | float64 (addr : FieldPath)
  | int64 (addr : FieldPath)
  | int (addr : FieldPath)
  | uint64 (addr : FieldPath)
  | uint (addr : FieldPath)
  | duration (addr : FieldPath)
  | strSlice (addr : FieldPath) (override : Bool) (valueSplitPattern : String)
  | strMap (addr : FieldPath)
  deriving DecidableEq, Repr

/-- One registered flag: name, usage text, value adapter. -/
structure FlagEntry where
  name : String
  usage : String
  val : FlagVal
  deriving DecidableEq, Repr

/-- The external flag registry, in registration order. -/
abbrev FlagSet := List FlagEntry

/-- Model of flag.FlagSet.Lookup followed by reading the flag's Value. -/
def lookupFlag : FlagSet → String → Option FlagVal
  | [], _ => none
  | e :: rest, n => if e.name = n then some e.val else lookupFlag rest n

/-- Model of Set on each registered flag value: the primitive adapters of
the flag package convert and overwrite (integer conversions are modelled
in their decimal form, as noted at goParseInt64), while the two composite
adapters of this package read the backing value and append or merge. -/
def applySet (fv : FlagVal) (s : String) (root : GoValue) : Except String GoValue :=
  match fv with
  | .str a => .ok (root.setAt a (.str s))
  | .bool a =>
    match goParseBool s with
    | some b => .ok (root.setAt a (.bool b))
    | none => .error (strconvErr "ParseBool" s)
  | .float64 a =>
    match goParseFloat s with
    | some v => .ok (root.setAt a (.float v.1 v.2))
    | none => .error (strconvErr "ParseFloat" s)
  | .int64 a =>
    match goParseInt64 s with
    | some v => .ok (root.setAt a (.int v))
    | none => .error (strconvErr "ParseInt" s)
  | .int a =>
    match goParseInt64 s with
    | some v => .ok (root.setAt a (.int v))
    | none => .error (strconvErr "ParseInt" s)
  | .uint64 a =>
    match goParseUint64 s with
    | some v => .ok (root.setAt a (.int (Int.ofNat v)))
    | none => .error (strconvErr "ParseUint" s)
  | .uint a =>
    match goParseUint64 s with
    | some v => .ok (root.setAt a (.int (Int.ofNat v)))
    | none => .error (strconvErr "ParseUint" s)
  | .duration a =>
    match goParseDuration s with
    | some v => .ok (root.setAt a (.int v))
    | none => .error (durationErr s)
  | .strSlice a override pattern =>
    match root.getAt a with
    | some (.slice cur) => .ok (root.setAt a (.slice (strSliceSet cur override pattern s)))
    | _ => .error "strSliceVar: backing field is not a string slice"
  | .strMap a =>
    match root.getAt a with
    | some (.map (some cur)) => .ok (root.setAt a (.map (some (strToStrMapSet cur s))))
    | _ => .error "strToStrMapVar: backing field is not a string map"

/-- How a fill invocation ends when it does not complete normally: a
returned error, or the runtime panic of dereferencing the nil result of
flagSet.Lookup (processField's environment step looks the flag up by its
renamed name and reads .Value without a nil check). -/
inductive Outcome where
  | err (msg : String)
  | nilDeref (flagName : String)
  deriving DecidableEq, Repr

/-- The assembled filler options of the latest design.  fieldRenamer and
renameLongName are embedded from options.go.  Modelled from the spec:
the remaining surface of the options object, whose source file for the
latest design is not under src (only its uses in flagsfiller.go and the
tests are) — the env renamer composition list installed by WithEnv and
WithEnvRenamer, the switch disabling the environment-application step,
and the configurable delimiter pattern for list-value splitting, whose
default splits on comma (spec section 4.4) and newline (TestStringSlice). -/
structure FillerOptions where
  fieldRenamer : Option (String → String) := none
  envRenamer : List (String → String) := []
  noSetFromEnv : Bool := false
  valueSplitPattern : String := "[\n,]"

/-- Embedding of fillerOptions.renameLongName: the custom renamer if one
was given, the kebab-case default otherwise. -/
def renameLongName (o : FillerOptions) (name : String) : String :=
  match o.fieldRenamer with
  | none => toKebab name
  | some r => r name

/-- The process environment, as a name-value association. -/
abbrev Env := List (String × String)

/-- The alias list parsed from the aliases tag (strings.Split on comma). -/
def splitAliases (aliases : String) : List String :=
  splitStr (fun c => c = ',') aliases

/-- The registration step every processor ends with: one flag under the
primary name, then — when the aliases tag is nonempty — one per alias,
each holding the same value adapter.  This is the alias loop that each
processX function of the source repeats verbatim. -/
def registerFlag (fs : FlagSet) (renamed usage aliases : String) (fv : FlagVal) :
    FlagSet :=
  fs ++ ⟨renamed, usage, fv⟩ ::
    (if aliases ≠ "" then (splitAliases aliases).map (fun a => ⟨a, usage, fv⟩) else [])

/-! ## The per-kind processors

Each processor mirrors the processX function of the source for the exact
backing type (the processCustom fallback for named types is outside the
walk model): parse the default tag if present — a failure is returned
before any flag is registered — otherwise keep the field's instance
value as the default; registering through the flag package's XVar
functions stores the default into the backing field at registration
time; then register the primary name and the aliases.  The composite
processors register adapters without writing a default through the
registry (flag.Var stores nothing). -/

/-- Embedding of processString for a *string field. -/
def processString (addr : FieldPath) (hasDefaultTag : Bool) (tagDefault : String)
    (fs : FlagSet) (renamed usage aliases : String) (root : GoValue) :
    FlagSet × GoValue × Option Outcome :=
  let defaultVal := if hasDefaultTag then tagDefault
    else match root.getAt addr with
      | some (.str s) => s
      | _ => ""
  (registerFlag fs renamed usage aliases (.str addr),
   root.setAt addr (.str defaultVal), none)

/-- Embedding of processBool for a *bool field. -/
def processBool (addr : FieldPath) (hasDefaultTag : Bool) (tagDefault : String)
    (fs : FlagSet) (renamed usage aliases : String) (root : GoValue) :
    FlagSet × GoValue × Option Outcome :=
  if hasDefaultTag then
    match goParseBool tagDefault with
    | none => (fs, root, some (.err ("failed to parse default into bool: " ++
        strconvErr "ParseBool" tagDefault)))
    | some b =>
      (registerFlag fs renamed usage aliases (.bool addr),
       root.setAt addr (.bool b), none)
  else
    let defaultVal := match root.getAt addr with
      | some (.bool b) => b
      | _ => false
    (registerFlag fs renamed usage aliases (.bool addr),
     root.setAt addr (.bool defaultVal), none)

/-- Embedding of processInt64 for an *int64 field. -/
def processInt64 (addr : FieldPath) (hasDefaultTag : Bool) (tagDefault : String)
    (fs : FlagSet) (renamed usage aliases : String) (root : GoValue) :
    FlagSet × GoValue × Option Outcome :=
  if hasDefaultTag then
    match goParseInt64 tagDefault with
    | none => (fs, root, some (.err ("failed to parse default into int64: " ++
        strconvErr "ParseInt" tagDefault)))
    | some v =>
      (registerFlag fs renamed usage aliases (.int64 addr),
       root.setAt addr (.int v), none)
  else
    let defaultVal := match root.getAt addr with
      | some (.int n) => n
      | _ => 0
    (registerFlag fs renamed usage aliases (.int64 addr),
     root.setAt addr (.int defaultVal), none)

/-- Embedding of processInt for an *int field (strconv.Atoi default
parsing). -/
def processInt (addr : FieldPath) (hasDefaultTag : Bool) (tagDefault : String)
    (fs : FlagSet) (renamed usage aliases : String) (root : GoValue) :
    FlagSet × GoValue × Option Outcome :=
  if hasDefaultTag then
    match goParseInt64 tagDefault with
    | none => (fs, root, some (.err ("failed to parse default into int: " ++
        strconvErr "Atoi" tagDefault)))
    | some v =>
      (registerFlag fs renamed usage aliases (.int addr),
       root.setAt addr (.int v), none)
  else
    let defaultVal := match root.getAt addr with
      | some (.int n) => n
      | _ => 0
    (registerFlag fs renamed usage aliases (.int addr),
     root.setAt addr (.int defaultVal), none)

/-- Embedding of processUint64 for a *uint64 field. -/
def processUint64 (addr : FieldPath) (hasDefaultTag : Bool) (tagDefault : String)
    (fs : FlagSet) (renamed usage aliases : String) (root : GoValue) :
    FlagSet × GoValue × Option Outcome :=
  if hasDefaultTag then
    match goParseUint64 tagDefault with
    | none => (fs, root, some (.err ("failed to parse default into uint64: " ++
        strconvErr "ParseUint" tagDefault)))
    | some v =>
      (registerFlag fs renamed usage aliases (.uint64 addr),
       root.setAt addr (.int (Int.ofNat v)), none)
  else
    let defaultVal := match root.getAt addr with
      | some (.int n) => n
      | _ => 0
    (registerFlag fs renamed usage aliases (.uint64 addr),
     root.setAt addr (.int defaultVal), none)

/-- Embedding of processUint for a *uint field: the default tag goes
through strconv.Atoi and the signed result is reinterpreted as the 64-bit
unsigned value uint(asInt). -/
def processUint (addr : FieldPath) (hasDefaultTag : Bool) (tagDefault : String)
    (fs : FlagSet) (renamed usage aliases : String) (root : GoValue) :
    FlagSet × GoValue × Option Outcome :=
  if hasDefaultTag then
    match goParseInt64 tagDefault with
    | none => (fs, root, some (.err ("failed to parse default into uint: " ++
        strconvErr "Atoi" tagDefault)))
    | some v =>
      (registerFlag fs renamed usage aliases (.uint addr),
       root.setAt addr (.int (v % 2 ^ 64)), none)
  else
    let defaultVal := match root.getAt addr with
      | some (.int n) => n
      | _ => 0
    (registerFlag fs renamed usage aliases (.uint addr),
     root.setAt addr (.int defaultVal), none)

/-- Embedding of processFloat64 for a *float64 field (default parsing
through strconv.ParseFloat). -/
def processFloat64 (addr : FieldPath) (hasDefaultTag : Bool) (tagDefault : String)
    (fs : FlagSet) (renamed usage aliases : String) (root : GoValue) :
    FlagSet × GoValue × Option Outcome :=
  if hasDefaultTag then
    match goParseFloat tagDefault with
    | none => (fs, root, some (.err ("failed to parse default into float64: " ++
        strconvErr "ParseFloat" tagDefault)))
    | some v =>
      (registerFlag fs renamed usage aliases (.float64 addr),
       root.setAt addr (.float v.1 v.2), none)
  else
    let defaultVal : Int × Int := match root.getAt addr with
      | some (.float m e) => (m, e)
      | _ => (0, 0)
    (registerFlag fs renamed usage aliases (.float64 addr),
     root.setAt addr (.float defaultVal.1 defaultVal.2), none)

/-- Embedding of processDuration for a *time.Duration field. -/
def processDuration (addr : FieldPath) (hasDefaultTag : Bool) (tagDefault : String)
    (fs : FlagSet) (renamed usage aliases : String) (root : GoValue) :
    FlagSet × GoValue × Option Outcome :=
  if hasDefaultTag then
    match goParseDuration tagDefault with
    | none => (fs, root, some (.err ("failed to parse default into time.Duration: " ++
        durationErr tagDefault)))
    | some v =>
      (registerFlag fs renamed usage aliases (.duration addr),
       root.setAt addr (.int v), none)
  else
    let defaultVal := match root.getAt addr with
      | some (.int n) => n
      | _ => 0
    (registerFlag fs renamed usage aliases (.duration addr),
     root.setAt addr (.int defaultVal), none)

/-- Embedding of processStringSlice for a *[]string field: a default tag
replaces the instance value with its parse; the registered adapters carry
the override flag and the configured split pattern. -/
def processStringSlice (valueSplitPattern : String) (addr : FieldPath)
    (hasDefaultTag : Bool) (tagDefault : String) (fs : FlagSet)
    (renamed usage : String) (override : Bool) (aliases : String) (root : GoValue) :
    FlagSet × GoValue × Option Outcome :=
  let root := if hasDefaultTag then
      root.setAt addr (.slice (parseStringSlice tagDefault valueSplitPattern))
    else root
  (registerFlag fs renamed usage aliases (.strSlice addr override valueSplitPattern),
   root, none)

/-- Embedding of processStringToStringMap for a *map[string]string field:
a default tag replaces the field with its parse; otherwise a nil map is
replaced by a freshly made empty map; a non-nil map is kept.  The
registered adapters hold the resulting map as their backing store, which
the address models (the field is not reassigned afterwards within a
fill). -/
def processStringToStringMap (addr : FieldPath) (hasDefaultTag : Bool)
    (tagDefault : String) (fs : FlagSet) (renamed usage aliases : String)
    (root : GoValue) : FlagSet × GoValue × Option Outcome :=
  let root := if hasDefaultTag then
      root.setAt addr (.map (some (parseStringToStringMap tagDefault)))
    else match root.getAt addr with
      | some (.map none) => root.setAt addr (.map (some []))
      | _ => root
  (registerFlag fs renamed usage aliases (.strMap addr), root, none)

/-! ## processField and the walk -/

/-- Embedding of processField for one field of the walk model: resolve
the environment name (env tag override first, otherwise the composed env
renamers when installed), requote the usage text and append the env
hint, honor the empty flag tag as a skip, resolve the flag name (flag
tag override or the long-name renamer), dispatch on the field's kind —
the kinds absent from the walk model fall through the switch silently —
and finally, when environment application is active and the variable is
set, apply its value through the Set of the flag looked up by the
renamed name; a missing flag there is the nil dereference. -/
def processField (opts : FillerOptions) (env : Env) (addr : FieldPath)
    (name : String) (kind : Option TermKind) (tags : Tags)
    (fs : FlagSet) (root : GoValue) : FlagSet × GoValue × Option Outcome :=
  let envName := match tags.envTag with
    | some override => override
    | none =>
      if opts.envRenamer.isEmpty then ""
      else opts.envRenamer.foldl (fun n r => r n) name
  let aliases := tags.aliasesTag
  let usage0 := requoteUsage tags.usageTag
  let usage := if envName ≠ "" then usage0 ++ " (env " ++ envName ++ ")" else usage0
  let hasDefaultTag := tags.defaultTag.isSome
  let tagDefault := tags.defaultTag.getD ""
  if tags.flagTag = some "" then (fs, root, none)
  else
    let renamed := match tags.flagTag with
      | some override => override
      | none => renameLongName opts name
    let step : FlagSet × GoValue × Option Outcome :=
      match kind with
      | some .str => processString addr hasDefaultTag tagDefault fs renamed usage aliases root
      | some .bool => processBool addr hasDefaultTag tagDefault fs renamed usage aliases root
      | some .float64 => processFloat64 addr hasDefaultTag tagDefault fs renamed usage aliases root
      | some .duration => processDuration addr hasDefaultTag tagDefault fs renamed usage aliases root
      | some .int64 => processInt64 addr hasDefaultTag tagDefault fs renamed usage aliases root
      | some .int => processInt addr hasDefaultTag tagDefault fs renamed usage aliases root
      | some .uint64 => processUint64 addr hasDefaultTag tagDefault fs renamed usage aliases root
      | some .uint => processUint addr hasDefaultTag tagDefault fs renamed usage aliases root
      | some .strSlice =>
        let override := match tags.overrideValueTag with
          | some ov => (goParseBool ov).getD false
          | none => false
        processStringSlice opts.valueSplitPattern addr hasDefaultTag tagDefault
          fs renamed usage override aliases root
      | some .strMap => processStringToStringMap addr hasDefaultTag tagDefault
          fs renamed usage aliases root
      | none => (fs, root, none)
    match step with
    | (fs1, root1, some e) => (fs1, root1, some e)
    | (fs1, root1, none) =>
      if !opts.noSetFromEnv && envName ≠ "" then
        match lookupAssoc env envName with
        | some v =>
          match lookupFlag fs1 renamed with
          | none => (fs1, root1, some (.nilDeref renamed))
          | some fv =>
            match applySet fv v root1 with
            | .ok root2 => (fs1, root2, none)
            | .error e => (fs1, root1, some (.err
                ("failed to set from environment variable " ++ envName ++ ": " ++ e)))
        | none => (fs1, root1, none)
      else (fs1, root1, none)

/-- Embedding of shouldFlatten: the flatten tag is present with the exact
value true. -/
def shouldFlatten (tags : Tags) : Bool :=
  match tags.flattenTag with
  | none => false
  | some v => v = "true"

/-- Embedding of qualifiedNameForStructField: the already-dashed prefix
extended by the field's own name, or the prefix alone when flattened. -/
def qualifiedNameForStructField (fname : String) (tags : Tags) (pfx : String) :
    String :=
  if shouldFlatten tags then pfx else pfx ++ fname

/-- The zero value of a terminal kind (reflect.New semantics): note the
zero of a map-typed field is the nil map. -/
def TermKind.zero : TermKind → GoValue
  | .str => .str ""
  | .bool => .bool false
  | .float64 => .float 0 0
  | .int64 => .int 0
  | .int => .int 0
  | .uint64 => .int 0
  | .uint => .int 0
  | .duration => .int 0
  | .strSlice => .slice []
  | .strMap => .map none

mutual
/-- The zero value of a field type. -/
def zeroValue : FieldType → GoValue
  | .term k => k.zero
  | .structT _ fields => .structV (zeroValues fields)
  | .ptrStructT _ _ => .ptrStruct none
  | .ptrOther => .ptrOtherV
  | .unsupported => .unsupportedV

/-- The zero values of a field list. -/
def zeroValues : List Field → List GoValue
  | [] => []
  | .mk _ _ _ ft :: rest => zeroValue ft :: zeroValues rest
end

/-- Prefix-dashing at walkFields entry: a nonempty prefix gets the
separator appended before the loop over the fields. -/
def dashed (pfx : String) : String := if pfx = "" then pfx else pfx ++ "-"

mutual
/-- The loop of walkFields over the remaining fields, carrying the index
of the next field, the already-dashed prefix, the enclosing struct type
name for error wrapping, and the read-only flag that models reflect's
propagation through unexported fields (addr.CanInterface and
fieldValue.CanSet are false on values reached through an unexported
field).  The recursive walkFields call of the source is inlined here as
walkFieldList applied to the dashed qualified name, which is what
walkFields evaluates to. -/
def walkFieldList (opts : FillerOptions) (env : Env) (pfx tyName : String)
    (basePath : FieldPath) (i : Nat) (ro : Bool) :
    List Field → FlagSet → GoValue → FlagSet × GoValue × Option Outcome
  | [], fs, root => (fs, root, none)
  | f :: rest, fs, root =>
    match walkOneField opts env pfx tyName (basePath ++ [i]) ro f fs root with
    | (fs1, root1, none) => walkFieldList opts env pfx tyName basePath (i + 1) ro rest fs1 root1
    | out => out

/-- One iteration of the walkFields loop: skip on the empty flag tag;
recurse into plain struct fields (never in the extended registry in this
model) and into settable struct pointer fields after materializing nil
pointers; skip pointer-to-non-struct fields entirely; hand terminal and
unsupported fields whose address is interfaceable to processField; wrap
a returned error with the field name and enclosing struct type name (the
nil-dereference outcome propagates unwrapped, as a panic does). -/
def walkOneField (opts : FillerOptions) (env : Env) (pfx tyName : String)
    (fieldPath : FieldPath) (ro : Bool) :
    Field → FlagSet → GoValue → FlagSet × GoValue × Option Outcome
  | .mk fname exported tags ft, fs, root =>
    if tags.flagTag = some "" then (fs, root, none)
    else
      match ft with
      | .structT subTy subFields =>
        match walkFieldList opts env (dashed (qualifiedNameForStructField fname tags pfx))
            subTy fieldPath 0 (ro || !exported) subFields fs root with
        | (fs1, root1, some (.err m)) =>
          (fs1, root1, some (.err ("failed to process " ++ fname ++ " of " ++ tyName ++ ": " ++ m)))
        | out => out
      | .ptrStructT subTy subFields =>
        if !ro && exported then
          let root1 := match root.getAt fieldPath with
            | some (.ptrStruct none) => root.setAt fieldPath (.ptrStruct (some (zeroValues subFields)))
            | _ => root
          match walkFieldList opts env (dashed (qualifiedNameForStructField fname tags pfx))
              subTy fieldPath 0 ro subFields fs root1 with
          | (fs1, root2, some (.err m)) =>
            (fs1, root2, some (.err ("failed to process " ++ fname ++ " of " ++ tyName ++ ": " ++ m)))
          | out => out
        else (fs, root, none)
      | .ptrOther => (fs, root, none)
      | .term k =>
        if !ro && exported then
          match processField opts env fieldPath (pfx ++ fname) (some k) tags fs root with
          | (fs1, root1, some (.err m)) =>
            (fs1, root1, some (.err ("failed to process " ++ fname ++ " of " ++ tyName ++ ": " ++ m)))
          | out => out
        else (fs, root, none)
      | .unsupported =>
        if !ro && exported then
          match processField opts env fieldPath (pfx ++ fname) none tags fs root with
          | (fs1, root1, some (.err m)) =>
            (fs1, root1, some (.err ("failed to process " ++ fname ++ " of " ++ tyName ++ ": " ++ m)))
          | out => out
        else (fs, root, none)
end

/-- Embedding of walkFields: dash the nonempty prefix, then run the field
loop from index zero. -/
def walkFields (opts : FillerOptions) (env : Env) (pfx tyName : String)
    (basePath : FieldPath) (ro : Bool) (fields : List Field) (fs : FlagSet)
    (root : GoValue) : FlagSet × GoValue × Option Outcome :=
  walkFieldList opts env (dashed pfx) tyName basePath 0 ro fields fs root

/-- The argument of Fill: a pointer to a struct — carrying the struct
type name, the field descriptors and the value tree — or a value of any
other shape, carrying its reflect kind (and the element kind when it is
some pointer), which the kind check rejects. -/
inductive FillArg where
  | structPtr (tyName : String) (fields : List Field) (root : GoValue)
  | other (kind : RKind) (elemKind : Option RKind)

/-- Embedding of Fill: a pointer to a struct starts the walk with an
empty prefix on the pointed-to struct; anything else returns the
structural input error naming the actual kind.  (An argument whose kind
is ptr with a struct element is represented by the structPtr
constructor, so the guard in the other branch never fires.) -/
def Fill (opts : FillerOptions) (env : Env) (arg : FillArg) (fs : FlagSet) :
    FlagSet × FillArg × Option Outcome :=
  match arg with
  | .structPtr tyName fields root =>
    match walkFields opts env "" tyName [] false fields fs root with
    | (fs1, root1, e) => (fs1, .structPtr tyName fields root1, e)
  | .other kind elemKind =>
    if kind = .ptr ∧ elemKind = some .struct then (fs, arg, none)
    else (fs, arg, some (.err ("can only fill from struct pointer, but it was " ++
      kindString kind)))

/-- Model of the external argument parser (flag.FlagSet.Parse) on a
sequence of name-value pairs: look each flag up and apply its Set in
order; an unknown flag or a failing Set stops with an error. -/
def parseArgs (fs : FlagSet) : List (String × String) → GoValue → Except String GoValue
  | [], root => .ok root
  | (n, v) :: rest, root =>
    match lookupFlag fs n with
    | none => .error ("flag provided but not defined: -" ++ n)
    | some fv =>
      match applySet fv v root with
      | .ok root1 => parseArgs fs rest root1
      | .error e => .error ("invalid value \"" ++ v ++ "\" for flag -" ++ n ++ ": " ++ e)

/-- The value tree held by a Fill argument. -/
def FillArg.rootOf : FillArg → Option GoValue
  | .structPtr _ _ root => some root
  | .other _ _ => none

/-- The flag value each terminal kind's processor registers at an
address (the composite kinds also carry the override flag and split
pattern). -/
def kindFlagVal (k : TermKind) (addr : FieldPath) (valueSplitPattern : String)
    (override : Bool) : FlagVal :=
  match k with
  | .str => .str addr
  | .bool => .bool addr
  | .float64 => .float64 addr
  | .int64 => .int64 addr
  | .int => .int addr
  | .uint64 => .uint64 addr
  | .uint => .uint addr
  | .duration => .duration addr
  | .strSlice => .strSlice addr override valueSplitPattern
  | .strMap => .strMap addr

/-- The scalar kinds: those whose registered Set converts the incoming
text and overwrites the backing field, independent of its prior value. -/
def TermKind.scalar : TermKind → Bool
  | .strSlice => false
  | .strMap => false
  | _ => true

/-- The conversion a scalar kind's registered Set applies to incoming
text (command-line or environment values). -/
def convSet (k : TermKind) (s : String) : Option GoValue :=
  match k with
  | .str => some (.str s)
  | .bool => (goParseBool s).map .bool
  | .float64 => (goParseFloat s).map (fun p => .float p.1 p.2)
  | .int64 => (goParseInt64 s).map .int
  | .int => (goParseInt64 s).map .int
  | .uint64 => (goParseUint64 s).map (fun v => .int (Int.ofNat v))
  | .uint => (goParseUint64 s).map (fun v => .int (Int.ofNat v))
  | .duration => (goParseDuration s).map .int
  | .strSlice => none
  | .strMap => none

/-- The conversion a scalar kind's processor applies to the default tag
(processUint runs the default through Atoi and reinterprets the signed
result as uint, unlike its Set). -/
def convDefault (k : TermKind) (s : String) : Option GoValue :=
  match k with
  | .str => some (.str s)
  | .bool => (goParseBool s).map .bool
  | .float64 => (goParseFloat s).map (fun p => .float p.1 p.2)
  | .int64 => (goParseInt64 s).map .int
  | .int => (goParseInt64 s).map .int
  | .uint64 => (goParseUint64 s).map (fun v => .int (Int.ofNat v))
  | .uint => (goParseInt64 s).map (fun v => .int (v % 2 ^ 64))
  | .duration => (goParseDuration s).map .int
  | .strSlice => none
  | .strMap => none

/-- The kinds whose processor can reject a default tag value (the
string kind and the composite kinds convert defaults infallibly). -/
def TermKind.fallible : TermKind → Bool
  | .str => false
  | .strSlice => false
  | .strMap => false
  | _ => true

/-- The error message each processor wraps around a failing default
conversion, built from its fmt.Errorf format and the converter's own
error text. -/
def defaultErrMsg (k : TermKind) (d : String) : String :=
  match k with
  | .bool => "failed to parse default into bool: " ++ strconvErr "ParseBool" d
  | .float64 => "failed to parse default into float64: " ++ strconvErr "ParseFloat" d
  | .int64 => "failed to parse default into int64: " ++ strconvErr "ParseInt" d
  | .int => "failed to parse default into int: " ++ strconvErr "Atoi" d
  | .uint64 => "failed to parse default into uint64: " ++ strconvErr "ParseUint" d
  | .uint => "failed to parse default into uint: " ++ strconvErr "Atoi" d
  | .duration => "failed to parse default into time.Duration: " ++ durationErr d
  | _ => ""

/-- Embedding of the default step of the extended-type handlers
(processGeneral in general.go, textUnmarshalerType.process in
txtunmarshaler.go, and the processCustom fallback of flagsfiller.go):
when a default tag is present its value is converted and stored at
registration time, replacing the instance value; a conversion failure
is an error before any flag is usable.  The converter abstracts the
type's StrConverter or UnmarshalText as a text-to-value function. -/
def extApplyDefault {α : Type} (conv : String → Option α) (hasDefaultTag : Bool)
    (tagDefault : String) (cur : α) : Except String α :=
  if hasDefaultTag then
    match conv tagDefault with
    | some v => .ok v
    | none => .error "failed to parse default into custom type"
  else .ok cur

/-- Embedding of Set on an extended-type flag value (the Func closure
of processCustom, processGeneral's flag.Value adapters and
textUnmarshalerType.Set): convert the incoming text and store the
result, replacing the previous value entirely. -/
def extSet {α : Type} (conv : String → Option α) (s : String) (_cur : α) :
    Except String α :=
  match conv s with
  | some v => .ok v
  | none => .error "conversion failed"

/-- The value an extended-type field holds after its registration with
default application, then the environment step (processField lines
284-292 applying the variable through the flag's Set when present), and
then the caller's argument parsing (another Set when the flag is
passed), composed in program order. -/
def extFinal {α : Type} (conv : String → Option α) (hasDefaultTag : Bool)
    (tagDefault : String) (envVal argVal : Option String) (cur : α) :
    Except String α := do
  let v0 ← extApplyDefault conv hasDefaultTag tagDefault cur
  let v1 ← match envVal with
    | some ev => extSet conv ev v0
    | none => Except.ok v0
  match argVal with
  | some a => extSet conv a v1
  | none => Except.ok v1

/-- A []string field with a default tag, an env tag and the
override-value tag set, used by the precedence theorem. -/
def ovField (d : String) : Field :=
  Field.mk "Names" true
    { defaultTag := some d, envTag := some "MYVAR", overrideValueTag := some "true" }
    (.term .strSlice)

/-! ## Theorems -/

/-- The first element surviving dropWhile fails the predicate. -/
theorem dropWhile_head_false (p : Char → Bool) :
    ∀ (l : List Char) b t, l.dropWhile p = b :: t → p b = false := by
  intro l
  induction l with
  | nil => intro b t h; simp [List.dropWhile] at h
  | cons a rest ih =>
    intro b t h
    by_cases hpa : p a
    · rw [List.dropWhile_cons_of_pos hpa] at h
      exact ih b t h
    · rw [List.dropWhile_cons_of_neg hpa] at h
      cases h
      simpa using hpa

/-- dropWhile leaves a list alone when its head fails the predicate. -/
theorem dropWhile_eq_self_of_head (p : Char → Bool) (l : List Char)
    (h : ∀ b t, l = b :: t → p b = false) : l.dropWhile p = l := by
  cases l with
  | nil => rfl
  | cons a rest => rw [List.dropWhile_cons_of_neg (by simp [h a rest rfl])]

/-- dropWhile is idempotent. -/
theorem dropWhile_idem (p : Char → Bool) (l : List Char) :
    (l.dropWhile p).dropWhile p = l.dropWhile p := by
  apply dropWhile_eq_self_of_head
  intro b t h
  exact dropWhile_head_false p l b t h

/-- The characters of trimS form trimChars of the input characters. -/
def trimChars (cs : List Char) : List Char :=
  ((cs.dropWhile isSpaceC).reverse.dropWhile isSpaceC).reverse

/-- trimChars removes nothing from its own output. -/
theorem trimChars_idem (cs : List Char) : trimChars (trimChars cs) = trimChars cs := by
  unfold trimChars
  set X := cs.dropWhile isSpaceC with hX
  set Y := X.reverse.dropWhile isSpaceC with hY
  have hYdrop : Y.dropWhile isSpaceC = Y := by
    rw [hY]; exact dropWhile_idem _ _
  have hrev : Y.reverse.dropWhile isSpaceC = Y.reverse := by
    apply dropWhile_eq_self_of_head
    intro b t hbt
    have hYne : Y ≠ [] := by
      intro hnil
      rw [hnil] at hbt
      simp at hbt
    have hsuff : Y <:+ X.reverse := by rw [hY]; exact List.dropWhile_suffix _
    obtain ⟨l₁, hl₁⟩ := hsuff
    have hXne : X ≠ [] := by
      intro hnil
      rw [hnil] at hl₁
      simp at hl₁
      exact hYne hl₁.2
    obtain ⟨x, xs, hx⟩ := List.exists_cons_of_ne_nil hXne
    have hpx : isSpaceC x = false := dropWhile_head_false isSpaceC cs x xs (hX ▸ hx)
    have hlast : Y.getLast? = some x := by
      have h1 : (l₁ ++ Y).getLast? = Y.getLast? :=
        List.getLast?_append_of_ne_nil l₁ hYne
      have h2 : (X.reverse).getLast? = some x := by
        rw [hx]; simp
      rw [← hl₁, h1] at h2
      exact h2
    have hhead : Y.reverse.head? = some x := by
      rw [List.head?_reverse]; exact hlast
    rw [hbt] at hhead
    simp at hhead
    rw [hhead]
    exact hpx
  rw [hrev, List.reverse_reverse, hYdrop]

/-- trimS in terms of trimChars. -/
theorem trimS_eq_trimChars (s : String) : trimS s = String.mk (trimChars s.data) := rfl

/-- trimS is idempotent. -/
theorem trimS_idem (s : String) : trimS (trimS s) = trimS s :=
  congrArg String.mk (trimChars_idem s.data)

/-- C8: for every argument to Fill that is not a pointer to a struct,
Fill immediately returns a non-nil error reporting the actual kind that
was encountered, registering no flag and mutating nothing. -/
theorem c8_non_struct_pointer_error (opts : FillerOptions) (env : Env)
    (k : RKind) (ek : Option RKind) (fs : FlagSet)
    (h : ¬(k = .ptr ∧ ek = some .struct)) :
    Fill opts env (.other k ek) fs =
      (fs, .other k ek, some (.err
        ("can only fill from struct pointer, but it was " ++ kindString k))) := by
  simp only [Fill, h, if_false]

/-- Witness for C8: a struct passed by value (kind struct, no element
kind) is rejected with the message naming the struct kind. -/
theorem c8_non_struct_pointer_error_witness :
    Fill {} [] (.other .struct none) [] =
      ([], .other .struct none, some (.err
        "can only fill from struct pointer, but it was struct")) :=
  c8_non_struct_pointer_error {} [] .struct none [] (by simp)

/-- C3 counterexample: a field of string kind with the explicit type tag
hint stringSlice is dispatched by its structural kind, not by the hint —
the string case of the switch precedes the case the hint extends, so the
hint does not take precedence over structural kind matching. -/
theorem c3_counterexample :
    dispatchOf [] [] ⟨.string, "main.MyString"⟩ "stringSlice" = .string ∧
    Dispatch.string ≠ Dispatch.stringSlice := by
  constructor
  · rfl
  · decide

/-- C3 amended: registered extended or custom types take precedence over
everything, the explicit type tag hint included; within the built-in
switch the hint extends the case it names — the duration case, checked
after string, bool and float64 but before the integer kinds, and the
string-list and string-map cases, checked last — so the hint overrides
only kinds whose own case comes later; the built-in order is string,
bool, float64, duration, int64, int, uint64, uint, string-list,
string-to-string-map, and anything matching no case is silently
ignored. -/
theorem c3_dispatch_amended (registry tu : List String) (t : RType) (ft : String) :
    (isSupported registry tu t = true → dispatchOf registry tu t ft = .extended) ∧
    (isSupported registry tu t = false → t.kind = .string →
      dispatchOf registry tu t ft = .string) ∧
    (isSupported registry tu t = false → t.kind = .bool →
      dispatchOf registry tu t ft = .bool) ∧
    (isSupported registry tu t = false → t.kind = .float64 →
      dispatchOf registry tu t ft = .float64) ∧
    (isSupported registry tu t = false → t = durationType →
      dispatchOf registry tu t ft = .duration) ∧
    (isSupported registry tu t = false → t.kind ≠ .string → t.kind ≠ .bool →
      t.kind ≠ .float64 → ft = "duration" →
      dispatchOf registry tu t ft = .duration) ∧
    (isSupported registry tu t = false → t.kind = .int64 → t ≠ durationType →
      ft ≠ "duration" → dispatchOf registry tu t ft = .int64) ∧
    (isSupported registry tu t = false → t.kind = .int → ft ≠ "duration" →
      dispatchOf registry tu t ft = .int) ∧
    (isSupported registry tu t = false → t.kind = .uint64 → ft ≠ "duration" →
      dispatchOf registry tu t ft = .uint64) ∧
    (isSupported registry tu t = false → t.kind = .uint → ft ≠ "duration" →
      dispatchOf registry tu t ft = .uint) ∧
    (isSupported registry tu t = false → t.kind = .slice → t ≠ stringSliceType →
      ft ≠ "duration" → ft = "stringSlice" →
      dispatchOf registry tu t ft = .stringSlice) ∧
    (isSupported registry tu t = false → t = stringSliceType → ft ≠ "duration" →
      dispatchOf registry tu t ft = .stringSlice) ∧
    (isSupported registry tu t = false → t = stringToStringMapType → ft ≠ "duration" →
      ft ≠ "stringSlice" → dispatchOf registry tu t ft = .stringMap) ∧
    (isSupported registry tu t = false → t.kind = .map → t ≠ stringToStringMapType →
      ft ≠ "duration" → ft ≠ "stringSlice" → ft = "stringMap" →
      dispatchOf registry tu t ft = .stringMap) ∧
    (isSupported registry tu t = false →
      t.kind ≠ .string → t.kind ≠ .bool → t.kind ≠ .float64 → t.kind ≠ .int64 →
      t.kind ≠ .int → t.kind ≠ .uint64 → t.kind ≠ .uint →
      t ≠ stringSliceType → t ≠ stringToStringMapType →
      ft ≠ "duration" → ft ≠ "stringSlice" → ft ≠ "stringMap" →
      dispatchOf registry tu t ft = .ignored) := by
  obtain ⟨tk, tn⟩ := t
  refine ⟨?_, ?_, ?_, ?_, ?_, ?_, ?_, ?_, ?_, ?_, ?_, ?_, ?_, ?_, ?_⟩
  all_goals intros
  all_goals simp_all [dispatchOf, durationType, stringSliceType, stringToStringMapType]
  all_goals cases tk
  all_goals simp_all

/-- Witness for C3 amended: a duration-typed field dispatches as a
duration although its kind is int64, and a named slice type with the
stringSlice hint dispatches as a string list. -/
theorem c3_dispatch_amended_witness :
    dispatchOf [] [] durationType "" = .duration ∧
    dispatchOf [] [] ⟨.slice, "main.Strings"⟩ "stringSlice" = .stringSlice := by
  constructor
  · exact (c3_dispatch_amended [] [] durationType "").2.2.2.2.1 (by rfl) rfl
  · exact (c3_dispatch_amended [] [] ⟨.slice, "main.Strings"⟩ "stringSlice").2.2.2.2.2.2.2.2.2.2.1
      (by rfl) rfl (by decide) (by decide) rfl

/-- C2 counterexample: for a []string field with default "one,two", a
set environment variable "five" and a command-line argument "three", the
final value is ["one","two","five","three"] — the default, the
environment value and the argument all accumulate through the appending
Set — not the converted argument value ["three"], so the command line
does not override the environment for list-typed fields. -/
theorem c2_counterexample :
    (Fill {} [("MYVAR", "five")] (.structPtr "T"
        [Field.mk "Names" true { defaultTag := some "one,two", envTag := some "MYVAR" }
          (.term .strSlice)]
        (.structV [.slice []])) [] =
      ([⟨"names", " (env MYVAR)", .strSlice [0] false "[\n,]"⟩],
       .structPtr "T"
         [Field.mk "Names" true { defaultTag := some "one,two", envTag := some "MYVAR" }
           (.term .strSlice)]
         (.structV [.slice ["one", "two", "five"]]),
       none)) ∧
    (parseArgs [⟨"names", " (env MYVAR)", .strSlice [0] false "[\n,]"⟩]
        [("names", "three")] (.structV [.slice ["one", "two", "five"]]) =
      .ok (.structV [.slice ["one", "two", "five", "three"]])) ∧
    parseStringSlice "three" "[\n,]" = ["three"] ∧
    (["one", "two", "five", "three"] : List String) ≠ ["three"] := by
  refine ⟨?_, ?_, by decide, by decide⟩
  · simp [Fill, walkFields, walkFieldList, walkOneField, processField,
      processStringSlice, registerFlag, requoteUsage, renameLongName, dashed,
      lookupAssoc, lookupFlag, applySet, GoValue.getAt, getAtChildren,
      GoValue.setAt, setAtChildren]
    decide
  · simp [parseArgs, lookupFlag, applySet, GoValue.getAt, getAtChildren,
      GoValue.setAt, setAtChildren]
    decide

/-- C2 amended: for every supported field whose registered Set converts
the incoming text and overwrites the backing value — string, bool,
float64, int64, int, uint64, uint and duration fields, []string fields
with override-value true, and extended/TextUnmarshaler/custom
registered types — the final value after Fill and argument parsing is
the converted command-line argument when the flag was passed, otherwise
the converted environment value when the variable is set, otherwise the
converted default, because Fill applies the environment value through
the flag's Set after registering the flag with its default and before
the caller parses arguments.  For the appending []string fields without
override-value and the merging map fields the three sources accumulate
in that order instead of overriding one another (see the
counterexample). -/
theorem c2_precedence_amended :
    (∀ (k : TermKind) (d ev a : String) (vd vev va : GoValue),
      k.scalar = true → convDefault k d = some vd → convSet k ev = some vev →
      convSet k a = some va →
      (Fill {} [] (.structPtr "T"
          [Field.mk "Host" true { defaultTag := some d, envTag := some "MYVAR" } (.term k)]
          (.structV [k.zero])) [] =
        ([⟨"host", " (env MYVAR)", kindFlagVal k [0] "[\n,]" false⟩],
         .structPtr "T"
           [Field.mk "Host" true { defaultTag := some d, envTag := some "MYVAR" } (.term k)]
           (.structV [vd]),
         none)) ∧
      (Fill {} [("MYVAR", ev)] (.structPtr "T"
          [Field.mk "Host" true { defaultTag := some d, envTag := some "MYVAR" } (.term k)]
          (.structV [k.zero])) [] =
        ([⟨"host", " (env MYVAR)", kindFlagVal k [0] "[\n,]" false⟩],
         .structPtr "T"
           [Field.mk "Host" true { defaultTag := some d, envTag := some "MYVAR" } (.term k)]
           (.structV [vev]),
         none)) ∧
      (parseArgs [⟨"host", " (env MYVAR)", kindFlagVal k [0] "[\n,]" false⟩]
          [("host", a)] (.structV [vev]) = .ok (.structV [va]))) ∧
    (∀ d ev a : String,
      (Fill {} [] (.structPtr "T" [ovField d] (.structV [.slice []])) [] =
        ([⟨"names", " (env MYVAR)", .strSlice [0] true "[\n,]"⟩],
         .structPtr "T" [ovField d] (.structV [.slice (parseStringSlice d "[\n,]")]),
         none)) ∧
      (Fill {} [("MYVAR", ev)] (.structPtr "T" [ovField d] (.structV [.slice []])) [] =
        ([⟨"names", " (env MYVAR)", .strSlice [0] true "[\n,]"⟩],
         .structPtr "T" [ovField d] (.structV [.slice (parseStringSlice ev "[\n,]")]),
         none)) ∧
      (parseArgs [⟨"names", " (env MYVAR)", .strSlice [0] true "[\n,]"⟩]
          [("names", a)] (.structV [.slice (parseStringSlice ev "[\n,]")]) =
        .ok (.structV [.slice (parseStringSlice a "[\n,]")]))) ∧
    (∀ (α : Type) (conv : String → Option α) (d ev a : String) (vd vev va cur : α),
      conv d = some vd → conv ev = some vev → conv a = some va →
      extFinal conv true d (some ev) (some a) cur = .ok va ∧
      extFinal conv true d (some ev) none cur = .ok vev ∧
      extFinal conv true d none none cur = .ok vd) := by
  refine ⟨?_, ?_, ?_⟩
  · intro k d ev a vd vev va hk hd hev ha
    cases k with
    | strSlice => simp [TermKind.scalar] at hk
    | strMap => simp [TermKind.scalar] at hk
    | str =>
      simp only [convDefault, Option.some.injEq] at hd
      simp only [convSet, Option.some.injEq] at hev ha
      subst hd; subst hev; subst ha
      refine ⟨?_, ?_, ?_⟩ <;>
        simp [Fill, walkFields, walkFieldList, walkOneField, processField, processString,
          registerFlag, requoteUsage, renameLongName, dashed, lookupAssoc, lookupFlag,
          applySet, parseArgs, kindFlagVal, TermKind.zero,
          GoValue.getAt, getAtChildren, GoValue.setAt, setAtChildren] <;>
        decide
    | bool =>
      simp only [convDefault, Option.map_eq_some'] at hd
      simp only [convSet, Option.map_eq_some'] at hev ha
      obtain ⟨b, hb, rfl⟩ := hd
      obtain ⟨bev, hbev, rfl⟩ := hev
      obtain ⟨ba, hba, rfl⟩ := ha
      refine ⟨?_, ?_, ?_⟩ <;>
        simp [Fill, walkFields, walkFieldList, walkOneField, processField, processBool,
          registerFlag, requoteUsage, renameLongName, dashed, lookupAssoc, lookupFlag,
          applySet, parseArgs, kindFlagVal, TermKind.zero, hb, hbev, hba,
          GoValue.getAt, getAtChildren, GoValue.setAt, setAtChildren] <;>
        decide
    | float64 =>
      simp only [convDefault, Option.map_eq_some'] at hd
      simp only [convSet, Option.map_eq_some'] at hev ha
      obtain ⟨q, hq, rfl⟩ := hd
      obtain ⟨qev, hqev, rfl⟩ := hev
      obtain ⟨qa, hqa, rfl⟩ := ha
      refine ⟨?_, ?_, ?_⟩ <;>
        simp [Fill, walkFields, walkFieldList, walkOneField, processField, processFloat64,
          registerFlag, requoteUsage, renameLongName, dashed, lookupAssoc, lookupFlag,
          applySet, parseArgs, kindFlagVal, TermKind.zero, hq, hqev, hqa,
          GoValue.getAt, getAtChildren, GoValue.setAt, setAtChildren] <;>
        decide
    | int64 =>
      simp only [convDefault, Option.map_eq_some'] at hd
      simp only [convSet, Option.map_eq_some'] at hev ha
      obtain ⟨n, hn, rfl⟩ := hd
      obtain ⟨nev, hnev, rfl⟩ := hev
      obtain ⟨na, hna, rfl⟩ := ha
      refine ⟨?_, ?_, ?_⟩ <;>
        simp [Fill, walkFields, walkFieldList, walkOneField, processField, processInt64,
          registerFlag, requoteUsage, renameLongName, dashed, lookupAssoc, lookupFlag,
          applySet, parseArgs, kindFlagVal, TermKind.zero, hn, hnev, hna,
          GoValue.getAt, getAtChildren, GoValue.setAt, setAtChildren] <;>
        decide
    | int =>
      simp only [convDefault, Option.map_eq_some'] at hd
      simp only [convSet, Option.map_eq_some'] at hev ha
      obtain ⟨n, hn, rfl⟩ := hd
      obtain ⟨nev, hnev, rfl⟩ := hev
      obtain ⟨na, hna, rfl⟩ := ha
      refine ⟨?_, ?_, ?_⟩ <;>
        simp [Fill, walkFields, walkFieldList, walkOneField, processField, processInt,
          registerFlag, requoteUsage, renameLongName, dashed, lookupAssoc, lookupFlag,
          applySet, parseArgs, kindFlagVal, TermKind.zero, hn, hnev, hna,
          GoValue.getAt, getAtChildren, GoValue.setAt, setAtChildren] <;>
        decide
    | uint64 =>
      simp only [convDefault, Option.map_eq_some'] at hd
      simp only [convSet, Option.map_eq_some'] at hev ha
      obtain ⟨n, hn, rfl⟩ := hd
      obtain ⟨nev, hnev, rfl⟩ := hev
      obtain ⟨na, hna, rfl⟩ := ha
      refine ⟨?_, ?_, ?_⟩ <;>
        simp [Fill, walkFields, walkFieldList, walkOneField, processField, processUint64,
          registerFlag, requoteUsage, renameLongName, dashed, lookupAssoc, lookupFlag,
          applySet, parseArgs, kindFlagVal, TermKind.zero, hn, hnev, hna,
          GoValue.getAt, getAtChildren, GoValue.setAt, setAtChildren] <;>
        decide
    | uint =>
      simp only [convDefault, Option.map_eq_some'] at hd
      simp only [convSet, Option.map_eq_some'] at hev ha
      obtain ⟨n, hn, rfl⟩ := hd
      obtain ⟨nev, hnev, rfl⟩ := hev
      obtain ⟨na, hna, rfl⟩ := ha
      refine ⟨?_, ?_, ?_⟩ <;>
        simp [Fill, walkFields, walkFieldList, walkOneField, processField, processUint,
          registerFlag, requoteUsage, renameLongName, dashed, lookupAssoc, lookupFlag,
          applySet, parseArgs, kindFlagVal, TermKind.zero, hn, hnev, hna,
          GoValue.getAt, getAtChildren, GoValue.setAt, setAtChildren] <;>
        decide
    | duration =>
      simp only [convDefault, Option.map_eq_some'] at hd
      simp only [convSet, Option.map_eq_some'] at hev ha
      obtain ⟨n, hn, rfl⟩ := hd
      obtain ⟨nev, hnev, rfl⟩ := hev
      obtain ⟨na, hna, rfl⟩ := ha
      refine ⟨?_, ?_, ?_⟩ <;>
        simp [Fill, walkFields, walkFieldList, walkOneField, processField, processDuration,
          registerFlag, requoteUsage, renameLongName, dashed, lookupAssoc, lookupFlag,
          applySet, parseArgs, kindFlagVal, TermKind.zero, hn, hnev, hna,
          GoValue.getAt, getAtChildren, GoValue.setAt, setAtChildren] <;>
        decide
  · intro d ev a
    have hov : goParseBool "true" = some true := rfl
    refine ⟨?_, ?_, ?_⟩ <;>
      simp [ovField, Fill, walkFields, walkFieldList, walkOneField, processField,
        processStringSlice, strSliceSet, registerFlag, requoteUsage, renameLongName,
        dashed, lookupAssoc, lookupFlag, applySet, parseArgs, hov, Option.getD,
        GoValue.getAt, getAtChildren, GoValue.setAt, setAtChildren] <;>
      decide
  · intro α conv d ev a vd vev va cur hd hev ha
    refine ⟨?_, ?_, ?_⟩ <;>
      simp only [extFinal, extApplyDefault, extSet, hd, hev, ha, if_pos] <;>
      rfl

/-- Witness for C2 amended: a bool field runs the three scenarios; an
override-value list field's argument replaces the environment value;
and an extended type (with the bool converter standing in) ends at the
argument's converted value. -/
theorem c2_precedence_amended_witness :
    (parseArgs [⟨"host", " (env MYVAR)", kindFlagVal .bool [0] "[\n,]" false⟩]
        [("host", "0")] (.structV [.bool true]) = .ok (.structV [.bool false])) ∧
    (parseArgs [⟨"names", " (env MYVAR)", .strSlice [0] true "[\n,]"⟩]
        [("names", "three")]
        (.structV [.slice (parseStringSlice "five" "[\n,]")]) =
      .ok (.structV [.slice (parseStringSlice "three" "[\n,]")])) ∧
    extFinal goParseBool true "false" (some "true") (some "0") false =
      .ok false := by
  refine ⟨?_, ?_, ?_⟩
  · exact (c2_precedence_amended.1 .bool "false" "true" "0"
      (.bool false) (.bool true) (.bool false) rfl rfl rfl rfl).2.2
  · exact (c2_precedence_amended.2.1 "one,two" "five" "three").2.2
  · exact (c2_precedence_amended.2.2 Bool goParseBool "false" "true" "0"
      false true false false rfl rfl rfl).1

/-- A single chain of nested structs for the naming theorems: each
ancestor is an exported struct field (optionally flattened) wrapping the
next, and the innermost struct holds one exported string field. -/
def chainField : List (String × Bool) → String → Field
  | [], l => .mk l true {} (.term .str)
  | (n, flat) :: rest, l =>
    .mk n true { flattenTag := if flat then some "true" else none }
      (.structT n [chainField rest l])

/-- The flag-name prefix computation the walk performs along a chain:
entering an ancestor dashes the nonempty prefix and appends the
ancestor's name unless it is flattened; the terminal name is the dashed
final prefix followed by the field's own name. -/
def chainName (P : String) : List (String × Bool) → String → String
  | [], l => P ++ l
  | (n, flat) :: rest, l => chainName (dashed (if flat then P else P ++ n)) rest l

/-- Joining name segments with the separator. -/
def joinDash : List String → String
  | [] => ""
  | [x] => x
  | x :: xs => x ++ "-" ++ joinDash xs

/-- The segments a chain of ancestors contributes to the flag name: a
non-flattened ancestor contributes its name; a flattened ancestor whose
accumulated prefix is empty disappears entirely, while one with a
nonempty accumulated prefix leaves an empty segment behind (the walk
dashes the prefix again on entry, doubling the separator). -/
def flattenSegs : Bool → List (String × Bool) → List String
  | _, [] => []
  | nonempty, (n, flat) :: rest =>
    if flat then
      if nonempty then "" :: flattenSegs true rest else flattenSegs false rest
    else n :: flattenSegs true rest

/-- joinDash on a cons with a nonempty tail. -/
theorem joinDash_cons (x : String) (xs : List String) (h : xs ≠ []) :
    joinDash (x :: xs) = x ++ "-" ++ joinDash xs := by
  cases xs with
  | nil => exact absurd rfl h
  | cons y ys => rfl

/-- Appending a nonempty string never yields the empty string. -/
theorem append_ne_empty_right (a b : String) (hb : b ≠ "") : a ++ b ≠ "" := by
  intro h
  apply hb
  have : (a ++ b).data = [] := by rw [h]
  rw [String.data_append] at this
  have hbnil : b.data = [] := (List.append_eq_nil.mp this).2
  cases b
  simp at hbnil
  rw [hbnil]

/-- A one-field list steps through walkOneField and stops. -/
theorem walkFieldList_singleton (opts : FillerOptions) (env : Env)
    (pfx ty : String) (bp : FieldPath) (i : Nat) (ro : Bool) (f : Field)
    (fs : FlagSet) (root : GoValue) :
    walkFieldList opts env pfx ty bp i ro [f] fs root =
      match walkOneField opts env pfx ty (bp ++ [i]) ro f fs root with
      | (fs1, root1, none) => (fs1, root1, none)
      | out => out := by
  simp only [walkFieldList]

/-- The walk along a chain registers exactly one flag, named by the
kebab transform of the chain's accumulated prefix followed by the
terminal field's name, at the address descending one step per level,
and finishes without an error. -/
theorem walk_chain (anc : List (String × Bool)) (lname : String) :
    ∀ (P ty : String) (p : FieldPath) (fs : FlagSet) (root : GoValue),
    ((walkOneField {} [] P ty p false (chainField anc lname) fs root).1 =
      fs ++ [⟨toKebab (chainName P anc lname), "",
        .str (p ++ List.replicate anc.length 0)⟩]) ∧
    (walkOneField {} [] P ty p false (chainField anc lname) fs root).2.2 = none := by
  induction anc with
  | nil =>
    intro P ty p fs root
    simp [chainField, chainName, walkOneField, processField,
      processString, registerFlag, requoteUsage, renameLongName]
  | cons a rest ih =>
    obtain ⟨n, flat⟩ := a
    intro P ty p fs root
    have hq : qualifiedNameForStructField n
        { flattenTag := if flat then some "true" else none } P =
        if flat then P else P ++ n := by
      cases flat <;> simp [qualifiedNameForStructField, shouldFlatten]
    have hsub := ih (dashed (if flat then P else P ++ n)) n (p ++ [0]) fs root
    rcases hres : walkOneField {} [] (dashed (if flat then P else P ++ n)) n
        (p ++ [0]) false (chainField rest lname) fs root with ⟨fs1, root1, e⟩
    rw [hres] at hsub
    obtain ⟨hfs, he⟩ := hsub
    simp only at hfs he
    subst he
    simp only [chainField, walkOneField, hq, walkFieldList_singleton,
      Bool.not_true, Bool.false_or]
    rw [hres]
    simp [chainName, hfs, List.replicate_succ, List.append_assoc]

/-- chainName of a dashed prefix, in closed form: with an empty starting
prefix it is the dash-joined flatten-aware segments followed by the leaf
name, provided the ancestor names are nonempty (they are Go identifiers). -/
theorem chainName_eq_joinDash (anc : List (String × Bool)) (l : String) :
    ∀ P : String, (∀ p ∈ anc, p.1 ≠ "") →
    chainName (dashed P) anc l =
      if P = "" then joinDash (flattenSegs false anc ++ [l])
      else P ++ "-" ++ joinDash (flattenSegs true anc ++ [l]) := by
  induction anc with
  | nil =>
    intro P _
    by_cases hP : P = "" <;> simp [chainName, dashed, joinDash, hP]
  | cons a rest ih =>
    obtain ⟨n, flat⟩ := a
    intro P hanc
    have hn : n ≠ "" := hanc (n, flat) (List.mem_cons_self _ _)
    have hrest : ∀ p ∈ rest, p.1 ≠ "" :=
      fun p hp => hanc p (List.mem_cons_of_mem _ hp)
    have htail : flattenSegs true rest ++ [l] ≠ [] := by simp
    cases flat with
    | false =>
      have hstep : chainName (dashed P) ((n, false) :: rest) l =
          chainName (dashed (dashed P ++ n)) rest l := rfl
      rw [hstep, ih (dashed P ++ n) hrest, if_neg (append_ne_empty_right _ _ hn)]
      by_cases hP : P = ""
      · subst hP
        rw [if_pos rfl,
          show flattenSegs false ((n, false) :: rest) = n :: flattenSegs true rest from rfl,
          List.cons_append, joinDash_cons n _ htail]
        simp [dashed]
      · rw [if_neg hP,
          show flattenSegs true ((n, false) :: rest) = n :: flattenSegs true rest from rfl,
          List.cons_append, joinDash_cons n _ htail]
        simp [dashed, hP, String.append_assoc]
    | true =>
      have hstep : chainName (dashed P) ((n, true) :: rest) l =
          chainName (dashed (dashed P)) rest l := rfl
      by_cases hP : P = ""
      · subst hP
        rw [hstep, show dashed (dashed "") = dashed "" from rfl, ih "" hrest,
          if_pos rfl, if_pos rfl,
          show flattenSegs false ((n, true) :: rest) = flattenSegs false rest from rfl]
      · have hdP : dashed P ≠ "" := by
          rw [show dashed P = P ++ "-" by simp [dashed, hP]]
          exact append_ne_empty_right P "-" (by decide)
        rw [hstep, ih (dashed P) hrest, if_neg hdP, if_neg hP,
          show flattenSegs true ((n, true) :: rest) = "" :: flattenSegs true rest from rfl,
          List.cons_append, joinDash_cons "" _ htail]
        simp [dashed, hP, String.append_assoc]
        congr 1

/-- With no flattened ancestor the segments are exactly the ancestor
names. -/
theorem flattenSegs_no_flatten (anc : List (String × Bool)) :
    ∀ b, (∀ p ∈ anc, p.2 = false) →
    flattenSegs b anc = anc.map (fun p => p.1) := by
  induction anc with
  | nil => intro b _; rfl
  | cons a rest ih =>
    obtain ⟨n, flat⟩ := a
    intro b h
    have hf : flat = false := h (n, flat) (List.mem_cons_self _ _)
    subst hf
    rw [show flattenSegs b ((n, false) :: rest) = n :: flattenSegs true rest from rfl,
      List.map_cons, ih true (fun p hp => h p (List.mem_cons_of_mem _ hp))]

/-- C1 counterexample: with the chain Apple → Bravo (flattened) →
Charlie the code registers the flag apple--charlie — the walk dashes the
nonempty prefix again when entering the flattened struct, leaving a
doubled separator — whereas omitting the flattened segment from the
joined path would give apple-charlie. -/
theorem c1_counterexample :
    ((Fill {} [] (.structPtr "main.Config"
        [chainField [("Apple", false), ("Bravo", true)] "Charlie"]
        (.structV [.structV [.structV [.str ""]]])) []).1.map (fun e => e.name) =
      ["apple--charlie"]) ∧
    toKebab (joinDash ["Apple", "Charlie"]) = "apple-charlie" ∧
    "apple--charlie" ≠ "apple-charlie" := by
  refine ⟨?_, by decide, by decide⟩
  simp [Fill, walkFields, walkFieldList, walkOneField, processField, processString,
    registerFlag, requoteUsage, renameLongName, dashed, chainField,
    qualifiedNameForStructField, shouldFlatten]
  decide

/-- C1 amended: for an exported terminal field nested under exported
ancestor structs, the resolved flag name is the default kebab transform
of the dash-joined path whose segments are the flatten-aware ancestor
segments followed by the field's own name: a non-flattened ancestor
contributes its name; a flattened ancestor is omitted when nothing
precedes it, but leaves an empty segment (a doubled separator) when its
accumulated prefix is nonempty.  When no ancestor is flattened the
segments are exactly the ancestor names in declaration order, as the
claim states. -/
theorem c1_flag_name_amended (anc : List (String × Bool)) (lname ty : String)
    (root : GoValue) (hanc : ∀ p ∈ anc, p.1 ≠ "") :
    ((Fill {} [] (.structPtr ty [chainField anc lname] root) []).1.map
        (fun e => e.name) =
      [toKebab (joinDash (flattenSegs false anc ++ [lname]))]) ∧
    ((∀ p ∈ anc, p.2 = false) → flattenSegs false anc = anc.map (fun p => p.1)) := by
  constructor
  · have hwalk := walk_chain anc lname "" ty [0] [] root
    have hname := chainName_eq_joinDash anc lname "" hanc
    rw [if_pos rfl] at hname
    have hdash : dashed "" = "" := rfl
    rw [hdash] at hname
    rcases hres : walkOneField {} [] "" ty [0] false (chainField anc lname) [] root
      with ⟨fs1, root1, e⟩
    rw [hres] at hwalk
    obtain ⟨hfs, he⟩ := hwalk
    simp only at hfs he
    subst he
    have hlist : walkFieldList {} [] "" ty [] 0 false [chainField anc lname] [] root =
        (fs1, root1, none) := by
      rw [walkFieldList_singleton]
      simp only [List.nil_append, hres]
    simp only [Fill, walkFields, hdash, hlist]
    simp [hfs, hname]
  · exact flattenSegs_no_flatten anc false

/-- Witness for C1 amended: the ungrouped SomeGrouping/SomeField example
resolves to some-grouping-some-field. -/
theorem c1_flag_name_amended_witness :
    ((Fill {} [] (.structPtr "main.Config"
        [chainField [("SomeGrouping", false)] "SomeField"]
        (.structV [.structV [.str ""]])) []).1.map (fun e => e.name) =
      [toKebab (joinDash (flattenSegs false [("SomeGrouping", false)] ++ ["SomeField"]))]) ∧
    toKebab (joinDash (flattenSegs false [("SomeGrouping", false)] ++ ["SomeField"])) =
      "some-grouping-some-field" := by
  constructor
  · exact (c1_flag_name_amended [("SomeGrouping", false)] "SomeField" "main.Config"
      (.structV [.structV [.str ""]]) (by decide)).1
  · decide

/-- The walk of a concatenation runs the first part and, only when that
ends without error, continues with the second part from the advanced
index, carrying over the registry and value state. -/
theorem walkFieldList_append (opts : FillerOptions) (env : Env) (pfx ty : String)
    (bp : FieldPath) (ro : Bool) (l1 l2 : List Field) :
    ∀ (i : Nat) (fs : FlagSet) (root : GoValue),
    walkFieldList opts env pfx ty bp i ro (l1 ++ l2) fs root =
      match walkFieldList opts env pfx ty bp i ro l1 fs root with
      | (fs1, root1, none) =>
        walkFieldList opts env pfx ty bp (i + l1.length) ro l2 fs1 root1
      | out => out := by
  induction l1 with
  | nil =>
    intro i fs root
    simp [walkFieldList]
  | cons f rest ih =>
    intro i fs root
    simp only [List.cons_append, walkFieldList]
    rcases hw : walkOneField opts env pfx ty (bp ++ [i]) ro f fs root with ⟨fs1, root1, e⟩
    cases e with
    | none =>
      dsimp only
      simp only [List.append_eq, List.length_cons]
      have harith : i + 1 + rest.length = i + (rest.length + 1) := by omega
      rw [ih (i + 1) fs1 root1, harith]
    | some o =>
      simp

/-- C4: a field of any default-convertible kind (bool, float64, int64,
int, uint64, uint, duration) whose default tag does not convert makes
Fill stop at that field with a single wrapped error naming the field,
its enclosing struct type and the conversion failure; no field after it
is processed or registered, while the flags and values produced by the
fields before it are kept. -/
theorem c4_bad_default_fail_fast (k : TermKind) (ty fname d : String)
    (pre post : List Field) (fs1 : FlagSet) (root0 root1 : GoValue)
    (hk : k.fallible = true)
    (hbad : convDefault k d = none)
    (hpre : walkFieldList {} [] "" ty [] 0 false pre [] root0 = (fs1, root1, none)) :
    Fill {} [] (.structPtr ty
        (pre ++ Field.mk fname true { defaultTag := some d } (.term k) :: post)
        root0) [] =
      (fs1,
       .structPtr ty
         (pre ++ Field.mk fname true { defaultTag := some d } (.term k) :: post)
         root1,
       some (.err ("failed to process " ++ fname ++ " of " ++ ty ++ ": " ++
         defaultErrMsg k d))) := by
  have hw : walkOneField {} [] "" ty ([] ++ [0 + pre.length]) false
      (Field.mk fname true { defaultTag := some d } (.term k)) fs1 root1 =
      (fs1, root1, some (.err ("failed to process " ++ fname ++ " of " ++ ty ++ ": " ++
        defaultErrMsg k d))) := by
    cases k with
    | str => simp [TermKind.fallible] at hk
    | strSlice => simp [TermKind.fallible] at hk
    | strMap => simp [TermKind.fallible] at hk
    | bool =>
      simp only [convDefault, Option.map_eq_none'] at hbad
      simp [walkOneField, processField, processBool, hbad, requoteUsage, defaultErrMsg]
    | float64 =>
      simp only [convDefault, Option.map_eq_none'] at hbad
      simp [walkOneField, processField, processFloat64, hbad, requoteUsage, defaultErrMsg]
    | int64 =>
      simp only [convDefault, Option.map_eq_none'] at hbad
      simp [walkOneField, processField, processInt64, hbad, requoteUsage, defaultErrMsg]
    | int =>
      simp only [convDefault, Option.map_eq_none'] at hbad
      simp [walkOneField, processField, processInt, hbad, requoteUsage, defaultErrMsg]
    | uint64 =>
      simp only [convDefault, Option.map_eq_none'] at hbad
      simp [walkOneField, processField, processUint64, hbad, requoteUsage, defaultErrMsg]
    | uint =>
      simp only [convDefault, Option.map_eq_none'] at hbad
      simp [walkOneField, processField, processUint, hbad, requoteUsage, defaultErrMsg]
    | duration =>
      simp only [convDefault, Option.map_eq_none'] at hbad
      simp [walkOneField, processField, processDuration, hbad, requoteUsage, defaultErrMsg]
  simp only [Fill, walkFields, show dashed "" = "" from rfl]
  rw [walkFieldList_append {} [] "" ty [] false pre
    (Field.mk fname true { defaultTag := some d } (.term k) :: post) 0 [] root0,
    hpre]
  simp only [walkFieldList]
  rw [hw]

/-- Witness for C4: a struct with a good string field, then a bool (or
a duration) field with default wrong, then another string field: the
fill keeps the first field's flag and aborts with the wrapped message;
no flag of the later field appears. -/
theorem c4_bad_default_fail_fast_witness :
    (Fill {} [] (.structPtr "main.Config"
        ([Field.mk "Alpha" true {} (.term .str)] ++
          Field.mk "Beta" true { defaultTag := some "wrong" } (.term .bool) ::
          [Field.mk "Gamma" true {} (.term .str)])
        (.structV [.str "", .bool false, .str ""])) [] =
      ([⟨"alpha", "", .str [0]⟩],
       .structPtr "main.Config"
         ([Field.mk "Alpha" true {} (.term .str)] ++
           Field.mk "Beta" true { defaultTag := some "wrong" } (.term .bool) ::
           [Field.mk "Gamma" true {} (.term .str)])
         (.structV [.str "", .bool false, .str ""]),
       some (.err ("failed to process " ++ "Beta" ++ " of " ++ "main.Config" ++ ": " ++
         defaultErrMsg .bool "wrong")))) ∧
    (Fill {} [] (.structPtr "main.Config"
        ([Field.mk "Alpha" true {} (.term .str)] ++
          Field.mk "Timeout" true { defaultTag := some "wrong" } (.term .duration) ::
          [Field.mk "Gamma" true {} (.term .str)])
        (.structV [.str "", .int 0, .str ""])) [] =
      ([⟨"alpha", "", .str [0]⟩],
       .structPtr "main.Config"
         ([Field.mk "Alpha" true {} (.term .str)] ++
           Field.mk "Timeout" true { defaultTag := some "wrong" } (.term .duration) ::
           [Field.mk "Gamma" true {} (.term .str)])
         (.structV [.str "", .int 0, .str ""]),
       some (.err ("failed to process " ++ "Timeout" ++ " of " ++ "main.Config" ++ ": " ++
         defaultErrMsg .duration "wrong")))) := by
  have hpre1 : walkFieldList {} [] "" "main.Config" [] 0 false
      [Field.mk "Alpha" true {} (.term .str)] []
      (.structV [.str "", .bool false, .str ""]) =
      ([⟨"alpha", "", .str [0]⟩], .structV [.str "", .bool false, .str ""], none) := by
    rw [walkFieldList_singleton]
    simp [walkOneField, processField, processString, registerFlag, requoteUsage,
      renameLongName, GoValue.getAt, getAtChildren, GoValue.setAt, setAtChildren]
    decide
  have hpre2 : walkFieldList {} [] "" "main.Config" [] 0 false
      [Field.mk "Alpha" true {} (.term .str)] []
      (.structV [.str "", .int 0, .str ""]) =
      ([⟨"alpha", "", .str [0]⟩], .structV [.str "", .int 0, .str ""], none) := by
    rw [walkFieldList_singleton]
    simp [walkOneField, processField, processString, registerFlag, requoteUsage,
      renameLongName, GoValue.getAt, getAtChildren, GoValue.setAt, setAtChildren]
    decide
  constructor
  · exact c4_bad_default_fail_fast .bool "main.Config" "Beta" "wrong"
      [Field.mk "Alpha" true {} (.term .str)]
      [Field.mk "Gamma" true {} (.term .str)]
      [⟨"alpha", "", .str [0]⟩]
      (.structV [.str "", .bool false, .str ""])
      (.structV [.str "", .bool false, .str ""])
      rfl rfl hpre1
  · exact c4_bad_default_fail_fast .duration "main.Config" "Timeout" "wrong"
      [Field.mk "Alpha" true {} (.term .str)]
      [Field.mk "Gamma" true {} (.term .str)]
      [⟨"alpha", "", .str [0]⟩]
      (.structV [.str "", .int 0, .str ""])
      (.structV [.str "", .int 0, .str ""])
      rfl rfl hpre2

/-- C5: for a []string field under the configured delimiter pattern (the
comma-and-newline class that is the default, or a plain comma),
registering default "one,two" and then applying argument value "three"
through the registered flag's Set appends, yielding one, two, three;
with override-value true the same sequence replaces the backing
sequence, yielding three alone; every element produced by splitting is
trimmed and nonblank; and an empty delimiter pattern disables splitting
so the whole value becomes one element. -/
theorem c5_slice_set (P : String) (hP : P = "," ∨ P = "[\n,]") :
    (∀ override : Bool,
      processStringSlice P [0] true "one,two" [] "list" "" override ""
          (.structV [.slice []]) =
        ([⟨"list", "", .strSlice [0] override P⟩],
         .structV [.slice ["one", "two"]], none)) ∧
    (applySet (.strSlice [0] false P) "three" (.structV [.slice ["one", "two"]]) =
      .ok (.structV [.slice ["one", "two", "three"]])) ∧
    (applySet (.strSlice [0] true P) "three" (.structV [.slice ["one", "two"]]) =
      .ok (.structV [.slice ["three"]])) ∧
    (∀ val x, x ∈ parseStringSlice val P → x ≠ "" ∧ trimS x = x) ∧
    (∀ val, parseStringSlice val "" = [val]) := by
  have hmem : ∀ val x, x ∈ parseStringSlice val P → x ≠ "" ∧ trimS x = x := by
    intro val x hx
    have hPne : ¬(P = "") := by
      cases hP with
      | inl h => rw [h]; decide
      | inr h => rw [h]; decide
    rw [parseStringSlice, if_neg hPne] at hx
    rw [List.mem_filter] at hx
    obtain ⟨hmap, hne⟩ := hx
    rw [List.mem_map] at hmap
    obtain ⟨y, _, rfl⟩ := hmap
    refine ⟨by simpa using hne, trimS_idem y⟩
  refine ⟨?_, ?_, ?_, hmem, ?_⟩
  · intro override
    cases hP with
    | inl h =>
      subst h
      simp [processStringSlice, registerFlag, GoValue.setAt, setAtChildren]
      decide
    | inr h =>
      subst h
      simp [processStringSlice, registerFlag, GoValue.setAt, setAtChildren]
      decide
  · cases hP with
    | inl h =>
      subst h
      simp [applySet, GoValue.getAt, getAtChildren, GoValue.setAt, setAtChildren]
      decide
    | inr h =>
      subst h
      simp [applySet, GoValue.getAt, getAtChildren, GoValue.setAt, setAtChildren]
      decide
  · cases hP with
    | inl h =>
      subst h
      simp [applySet, GoValue.getAt, getAtChildren, GoValue.setAt, setAtChildren]
      decide
    | inr h =>
      subst h
      simp [applySet, GoValue.getAt, getAtChildren, GoValue.setAt, setAtChildren]
      decide
  · intro val
    simp [parseStringSlice]

/-- Witness for C5: the round trips and the splitting guarantees at the
default pattern, and unsplit round trip at the empty pattern. -/
theorem c5_slice_set_witness :
    (applySet (.strSlice [0] false "[\n,]") "three"
        (.structV [.slice ["one", "two"]]) =
      .ok (.structV [.slice ["one", "two", "three"]])) ∧
    (applySet (.strSlice [0] true "[\n,]") "three"
        (.structV [.slice ["one", "two"]]) =
      .ok (.structV [.slice ["three"]])) ∧
    parseStringSlice "a,b" "" = ["a,b"] := by
  have h := c5_slice_set "[\n,]" (Or.inr rfl)
  exact ⟨h.2.1, h.2.2.1, h.2.2.2.2 "a,b"⟩

/-- Replacing the value of entries keyed k does not change lookups of a
different key. -/
theorem lookupAssoc_map_replace (m : List (String × String)) (k v k' : String)
    (h : k ≠ k') :
    lookupAssoc (m.map (fun p => if p.1 = k then (k, v) else p)) k' =
      lookupAssoc m k' := by
  induction m with
  | nil => rfl
  | cons a rest ih =>
    obtain ⟨a1, a2⟩ := a
    by_cases ha : a1 = k
    · subst ha
      have hhead : (if (a1, a2).1 = a1 then (a1, v) else (a1, a2)) = (a1, v) := by simp
      rw [List.map_cons, hhead]
      simp [lookupAssoc, h, ih]
    · have hhead : (if (a1, a2).1 = k then (k, v) else (a1, a2)) = (a1, a2) := by simp [ha]
      rw [List.map_cons, hhead]
      simp [lookupAssoc, ih]

/-- Appending an entry keyed k does not change lookups of a different
key. -/
theorem lookupAssoc_append_other (m : List (String × String)) (k v k' : String)
    (h : k ≠ k') :
    lookupAssoc (m ++ [(k, v)]) k' = lookupAssoc m k' := by
  induction m with
  | nil => simp [lookupAssoc, h]
  | cons a rest ih =>
    by_cases hak : a.1 = k'
    · obtain ⟨a1, a2⟩ := a
      simp only [List.cons_append, lookupAssoc]
      simp only at hak
      simp [hak]
    · obtain ⟨a1, a2⟩ := a
      simp only [List.cons_append, lookupAssoc]
      simp only at hak
      simp [hak, ih]

/-- mapInsert does not change lookups of keys other than the inserted
one. -/
theorem mapInsert_lookup_other (m : List (String × String)) (k v k' : String)
    (h : k ≠ k') :
    lookupAssoc (mapInsert m k v) k' = lookupAssoc m k' := by
  unfold mapInsert
  by_cases hany : m.any (fun p => p.1 = k)
  · rw [if_pos hany]; exact lookupAssoc_map_replace m k v k' h
  · rw [if_neg hany]; exact lookupAssoc_append_other m k v k' h

/-- Splitting a list with no separator characters yields the whole list
as its one piece. -/
theorem splitChars_no_sep (p : Char → Bool) (cs : List Char)
    (h : ∀ c ∈ cs, p c = false) : splitChars p cs = [cs] := by
  induction cs with
  | nil => rfl
  | cons c rest ih =>
    have hc : p c = false := h c (List.mem_cons_self c rest)
    have hrest : splitChars p rest = [rest] := ih (fun d hd => h d (List.mem_cons_of_mem c hd))
    simp [splitChars, hc, hrest]

/-- takeWhile of a list all of whose elements satisfy the predicate is
the list itself. -/
theorem takeWhile_all (p : Char → Bool) (l : List Char) (h : ∀ c ∈ l, p c = true) :
    l.takeWhile p = l := by
  induction l with
  | nil => rfl
  | cons c rest ih =>
    rw [List.takeWhile_cons_of_pos (h c (List.mem_cons_self c rest))]
    rw [ih (fun d hd => h d (List.mem_cons_of_mem c hd))]

/-- dropWhile of a list all of whose elements satisfy the predicate is
empty. -/
theorem dropWhile_all (p : Char → Bool) (l : List Char) (h : ∀ c ∈ l, p c = true) :
    l.dropWhile p = [] := by
  induction l with
  | nil => rfl
  | cons c rest ih =>
    rw [List.dropWhile_cons_of_pos (h c (List.mem_cons_self c rest))]
    exact ih (fun d hd => h d (List.mem_cons_of_mem c hd))

/-- C6: a map[string]string flag's Set splits the incoming text on comma
or newline, splits each non-blank piece on the first '=' (a piece
without '=' maps the whole piece to the empty-string value, and only the
first '=' separates key from value), and merges entries into the
existing map rather than replacing it: the default
"fruit=apple,veggie=carrot" parses to the two-entry map, a later
argument "k1=v1" adds a third entry keeping both defaults, and any key
not among an update's parsed keys keeps its previous lookup. -/
theorem c6_map_set :
    (parseStringToStringMap "fruit=apple,veggie=carrot" =
      [("fruit", "apple"), ("veggie", "carrot")]) ∧
    (applySet (.strMap [0]) "k1=v1"
        (.structV [.map (some [("fruit", "apple"), ("veggie", "carrot")])]) =
      .ok (.structV [.map (some
        [("fruit", "apple"), ("veggie", "carrot"), ("k1", "v1")])])) ∧
    (parseStringToStringMap "a=b=c" = [("a", "b=c")]) ∧
    (∀ piece : String, piece ≠ "" → trimS piece = piece →
      (∀ c ∈ piece.data, c ≠ '=' ∧ c ≠ ',' ∧ c ≠ '\n') →
      parseStringToStringMap piece = [(piece, "")]) ∧
    (∀ (cur : List (String × String)) (val k : String),
      (∀ kv ∈ parseStringToStringMap val, kv.1 ≠ k) →
      lookupAssoc (strToStrMapSet cur val) k = lookupAssoc cur k) := by
  refine ⟨by decide, ?_, by decide, ?_, ?_⟩
  · simp [applySet, GoValue.getAt, getAtChildren, GoValue.setAt, setAtChildren]
    decide
  · intro piece hne htrim hclean
    have hsplit : splitChars (fun c => c = '\n' ∨ c = ',') piece.data = [piece.data] := by
      apply splitChars_no_sep
      intro c hc
      have := hclean c hc
      simp [this.2.1, this.2.2]
    have htake : piece.data.takeWhile (fun c => c ≠ '=') = piece.data := by
      apply takeWhile_all
      intro c hc
      simp [(hclean c hc).1]
    have hdrop : piece.data.dropWhile (fun c => c ≠ '=') = [] := by
      apply dropWhile_all
      intro c hc
      simp [(hclean c hc).1]
    simp only [parseStringToStringMap, splitStr, hsplit, List.map_cons, List.map_nil,
      List.foldl_cons, List.foldl_nil]
    have hmkdata : String.mk piece.data = piece := rfl
    rw [hmkdata, htrim, if_neg hne]
    simp only [splitFirstEq, htake, hdrop]
    rw [hmkdata]
    rfl
  · intro cur val k h
    unfold strToStrMapSet
    generalize hgen : parseStringToStringMap val = l at h
    clear hgen
    revert h
    induction l generalizing cur with
    | nil => intro _; rfl
    | cons kv rest ih =>
      intro h
      have hkv : kv.1 ≠ k := h kv (List.mem_cons_self kv rest)
      simp only [List.foldl_cons]
      rw [ih (mapInsert cur kv.1 kv.2) (fun kv' hkv' => h kv' (List.mem_cons_of_mem kv hkv'))]
      exact mapInsert_lookup_other cur kv.1 kv.2 k hkv

/-- Witness for C6: a clean piece without '=' maps to itself with the
empty value, and a merge leaves an untouched key's lookup unchanged. -/
theorem c6_map_set_witness :
    parseStringToStringMap "noeq" = [("noeq", "")] ∧
    lookupAssoc (strToStrMapSet [("fruit", "apple")] "k1=v1") "fruit" =
      some "apple" := by
  constructor
  · exact c6_map_set.2.2.2.1 "noeq" (by decide) (by decide) (by decide)
  · rw [c6_map_set.2.2.2.2 [("fruit", "apple")] "k1=v1" "fruit" (by decide)]
    rfl

/-- C10: a map[string]string field without a default tag whose value is
the nil map receives a freshly allocated empty map during Fill — after a
successful Fill and before any argument parsing or environment
application the field is non-nil — while a non-nil pre-existing map is
kept unchanged as the backing store of the registered flag. -/
theorem c10_map_nil_init (ty fname : String) (m : List (String × String)) :
    (Fill {} [] (.structPtr ty [.mk fname true {} (.term .strMap)]
        (.structV [.map none])) [] =
      ([⟨toKebab fname, "", .strMap [0]⟩],
       .structPtr ty [.mk fname true {} (.term .strMap)] (.structV [.map (some [])]),
       none)) ∧
    (Fill {} [] (.structPtr ty [.mk fname true {} (.term .strMap)]
        (.structV [.map (some m)])) [] =
      ([⟨toKebab fname, "", .strMap [0]⟩],
       .structPtr ty [.mk fname true {} (.term .strMap)] (.structV [.map (some m)]),
       none)) := by
  constructor <;>
    simp [Fill, walkFields, walkFieldList, walkOneField, processField,
      processStringToStringMap, registerFlag, renameLongName, dashed,
      GoValue.getAt, getAtChildren, GoValue.setAt, setAtChildren, splitAliases,
      requoteUsage]

/-- C7 (the claim's failure on the code): an unsupported-type field with
a resolved environment name whose variable is set makes Fill dereference
the nil result of looking up the never-registered flag name — a runtime
panic — instead of silently ignoring the field. -/
theorem c7_env_unsupported_nil_deref :
    Fill {} [("APP_DATA", "1,2")]
      (.structPtr "main.Config"
        [.mk "Data" true { envTag := some "APP_DATA" } .unsupported]
        (.structV [.unsupportedV])) [] =
      ([], .structPtr "main.Config"
        [.mk "Data" true { envTag := some "APP_DATA" } .unsupported]
        (.structV [.unsupportedV]),
       some (.nilDeref "data")) := by
  simp [Fill, walkFields, walkFieldList, walkOneField, processField, dashed,
    lookupAssoc, lookupFlag, renameLongName]
  decide

/-- Lookup in a run of entries that all hold the same flag value finds
that value for any name in the run. -/
theorem lookupFlag_map_const (names : List String) (u : String) (fv : FlagVal)
    (n : String) (hn : n ∈ names) :
    lookupFlag (names.map (fun a => ⟨a, u, fv⟩)) n = some fv := by
  induction names with
  | nil => cases hn
  | cons a rest ih =>
    by_cases h : a = n
    · simp [lookupFlag, h]
    · cases hn with
      | head => exact absurd rfl h
      | tail _ hmem => simp [lookupFlag, h, ih hmem]

/-- C9: a field carrying an aliases tag registers, besides the primary
name, one flag per comma-separated alias, each holding an adapter for
the same underlying address, so Set through any registered name mutates
the same field value and is observable through every other name.  Proved
for every kind of the walk model; the extended-type handlers and the
processCustom fallback run the identical alias registration loop. -/
theorem c9_alias_sharing (k : TermKind) (fname A : String) (root : GoValue)
    (hA : A ≠ "") :
    (processField {} [] [0] fname (some k) { aliasesTag := A } [] root).2.2 = none ∧
    (processField {} [] [0] fname (some k) { aliasesTag := A } [] root).1 =
      (renameLongName {} fname :: splitAliases A).map
        (fun a => ⟨a, "", kindFlagVal k [0] "[\n,]" false⟩) ∧
    (∀ n ∈ renameLongName {} fname :: splitAliases A,
      lookupFlag (processField {} [] [0] fname (some k) { aliasesTag := A } [] root).1 n =
        some (kindFlagVal k [0] "[\n,]" false)) := by
  have hreg : (processField {} [] [0] fname (some k) { aliasesTag := A } [] root).1 =
      (renameLongName {} fname :: splitAliases A).map
        (fun a => ⟨a, "", kindFlagVal k [0] "[\n,]" false⟩) := by
    cases k <;>
      simp [processField, processString, processBool, processFloat64, processInt64,
        processInt, processUint64, processUint, processDuration, processStringSlice,
        processStringToStringMap, registerFlag, kindFlagVal, requoteUsage, hA]
  have hnone : (processField {} [] [0] fname (some k) { aliasesTag := A } [] root).2.2 = none := by
    cases k <;>
      simp [processField, processString, processBool, processFloat64, processInt64,
        processInt, processUint64, processUint, processDuration, processStringSlice,
        processStringToStringMap, registerFlag, requoteUsage, hA]
  refine ⟨hnone, hreg, ?_⟩
  intro n hn
  rw [hreg]
  exact lookupFlag_map_const _ _ _ _ hn

/-- Witness for C9: a string field with aliases a and b registers three
flags whose lookups all yield the adapter of the same address. -/
theorem c9_alias_sharing_witness :
    (processField {} [] [0] "Host" (some .str) { aliasesTag := "a,b" } []
      (.structV [.str ""])).1 =
      [⟨"host", "", .str [0]⟩, ⟨"a", "", .str [0]⟩, ⟨"b", "", .str [0]⟩] ∧
    lookupFlag (processField {} [] [0] "Host" (some .str) { aliasesTag := "a,b" } []
      (.structV [.str ""])).1 "b" = some (.str [0]) := by
  have h := c9_alias_sharing .str "Host" "a,b" (.structV [.str ""]) (by decide)
  refine ⟨?_, ?_⟩
  · rw [h.2.1]
    decide
  · exact h.2.2 "b" (by decide)

end Flagsfiller
